import Mathlib

/-! # Virtual memory core of the teaching kernel (`kern/vm/vm.c`, `kern/vm/addrspace.c`)

A shallow embedding of the page table, the region list, the address space and
the fault handler, followed by theorems about them.

Conventions of the embedding.

* `vaddr_t`, `paddr_t`, `size_t` and `uint32_t` are 32-bit unsigned: they are
  natural numbers, and every operation that can leave the 32-bit range is
  reduced modulo `2 ^ 32` explicitly.
* `int` values (fault types, permission flags, return codes) are integers.
* A pointer that may be `NULL` is an `Option`; the linked list of regions is a
  `List` (`NULL` is the empty list, the head is the first element). The loop
  of `as_copy` that builds the new list is embedded a second time at the level
  of the nodes and their `next` pointers (`as_copy_nodes`), to speak of which
  nodes hold the regions.
* An array reached through a pointer is a function from indices; the code
  guards every access with its own range check, which is kept.
* Functions that touch the allocators, the memory or the TLB pass the state of
  the machine (`Kernel`) explicitly.
-/

namespace OSProject

/-! ## Constants of headers that the two source files include -/

/-- Modelled from the spec: the word size of `vaddr_t` and `paddr_t`
("addresses are 32-bit"); the type declarations are in `types.h`. -/
def WORD : Nat := 2 ^ 32

/-- Modelled from the spec: `PAGE_SIZE` of `vm.h` ("page size 4096 bytes"). -/
def PAGE_SIZE : Nat := 4096

/-- Modelled from the spec: `PAGE_FRAME` of `vm.h` ("frame-number mask strips
the low 12 status/offset bits"). -/
def PAGE_FRAME : Nat := 0xfffff000

/-- Modelled from the spec: `PTLEVEL1` of `addrspace.h` ("top 8 bits select
level-1 index (256-way)"). -/
def PTLEVEL1 : Nat := 256

/-- Modelled from the spec: `PTLEVEL2` of `addrspace.h` ("next 6 bits select
level-2 index (64-way)"). -/
def PTLEVEL2 : Nat := 64

/-- Modelled from the spec: `PTLEVEL3` of `addrspace.h` ("next 6 bits select
level-3 index (64-way)"). -/
def PTLEVEL3 : Nat := 64

/-- Modelled from the spec: `TLBLO_VALID` of `machine/tlb.h`, the valid bit
among the "low-order status bits" of a packed leaf; the MIPS value is bit 9. -/
def TLBLO_VALID : Nat := 0x00000200

/-- Modelled from the spec: `TLBLO_DIRTY` of `machine/tlb.h`, the dirty
(writable) bit among the "low-order status bits"; the MIPS value is bit 10. -/
def TLBLO_DIRTY : Nat := 0x00000400

/-- Modelled from the spec: `TLBHI_VPAGE` of `machine/tlb.h` ("high word holds
the virtual page number"): the mask of the top 20 bits. -/
def TLBHI_VPAGE : Nat := 0xfffff000

/-- Modelled from the spec: `MIPS_KSEG0` of `machine/vm.h`, the base of the
directly mapped kernel segment through which frames are addressed
("return a kernel virtual address"). -/
def MIPS_KSEG0 : Nat := 0x80000000

/-- Modelled from the spec: `USERSTACK` of `machine/vm.h` ("a fixed virtual
top-of-stack constant"). -/
def USERSTACK : Nat := 0x80000000

/-- Modelled from the spec: `N_STACKPAGES` of `addrspace.h` ("fixed stack size
of 16 pages"). -/
def N_STACKPAGES : Nat := 16

/-- Modelled from the spec: fault kind "read" (`VM_FAULT_READ` of `vm.h`). -/
def VM_FAULT_READ : Int := 0

/-- Modelled from the spec: fault kind "write" (`VM_FAULT_WRITE` of `vm.h`). -/
def VM_FAULT_WRITE : Int := 1

/-- Modelled from the spec: fault kind "read-only violation"
(`VM_FAULT_READONLY` of `vm.h`). -/
def VM_FAULT_READONLY : Int := 2

/-- Modelled from the spec: error kind `OutOfMemory` (`ENOMEM` of
`kern/errno.h`). -/
def ENOMEM : Int := 3

/-- Modelled from the spec: error kind `Fault` (`EFAULT` of `kern/errno.h`). -/
def EFAULT : Int := 6

/-- Modelled from the spec: error kind `InvalidArgument` (`EINVAL` of
`kern/errno.h`). -/
def EINVAL : Int := 8

/-- Modelled from the spec: the "reused generic error code" that stands for
`Overlap` (`EBADF` of `kern/errno.h`). -/
def EBADF : Int := 30

/-- Modelled from the spec: the macro `KVADDR_TO_PADDR` of `machine/vm.h`,
which turns the kernel virtual address of a frame into its physical address
(32-bit subtraction of the segment base). -/
def KVADDR_TO_PADDR (kvaddr : Nat) : Nat := (kvaddr + WORD - MIPS_KSEG0) % WORD

/-- Modelled from the spec: the macro `PADDR_TO_KVADDR` of `machine/vm.h`,
the inverse direction (32-bit addition of the segment base). -/
def PADDR_TO_KVADDR (paddr : Nat) : Nat := (paddr + MIPS_KSEG0) % WORD

/-! ## Data model -/

/-- The record `struct as_region` (without its `next` pointer, which is the
tail of the list that holds the region). -/
structure as_region where
  base : Nat
  size : Nat
  readable : Int
  writeable : Int
  executable : Int
  old_writeable : Int
  deriving DecidableEq, Repr

/-- A level-3 array, `paddr_t[PTLEVEL3]`: packed leaf values. -/
abbrev PTLeaf := Nat → Nat

/-- A level-2 array, `paddr_t *[PTLEVEL2]`: pointers to level-3 arrays. -/
abbrev PTMid := Nat → Option PTLeaf

/-- A level-1 array, `paddr_t **[PTLEVEL1]`: pointers to level-2 arrays. -/
abbrev PTTop := Nat → Option PTMid

/-- The record `struct addrspace`. -/
structure addrspace where
  as_regions : List as_region
  as_pt : Option PTTop

/-- One call made to the TLB device. -/
inductive tlb_call where
  | random (entryhi entrylo : Nat)
  | write (entryhi entrylo index : Nat)
  deriving DecidableEq, Repr

/-- The state of the machine around the virtual memory core.

* `curproc_as`: the address space of the current process (`proc_getas`);
* `kheap`: the outcomes of the coming `kmalloc` calls, in order: `none` is a
  failed call (`NULL`), `some g` is a block whose words not yet written read
  as `g`; past the end of the list every call fails;
* `free_frames`: the kernel virtual addresses that the coming
  `alloc_kpages(1)` calls return, in order; past the end the call returns 0;
* `mem`: the byte stored at each kernel virtual address;
* `tlb`: the calls made to the TLB device so far, oldest first;
* `spl`: the current interrupt priority level. -/
structure Kernel where
  curproc_as : Option addrspace
  kheap : List (Option Int)
  free_frames : List Nat
  mem : Nat → Nat
  tlb : List tlb_call
  spl : Nat

/-! ## External collaborators -/

/-- Modelled from the spec: the kernel heap, "an external collaborator with
standard allocate-or-fail semantics". The call consumes the next outcome. -/
def kmalloc (s : Kernel) : Option Int × Kernel :=
  match s.kheap with
  | [] => (none, s)
  | r :: rest => (r, { s with kheap := rest })

/-- Modelled from the spec: the frame allocator, "`allocate(n_pages)` →
`kernel_vaddr | 0-on-failure`", called with one page only. -/
def alloc_kpages (s : Kernel) : Nat × Kernel :=
  match s.free_frames with
  | [] => (0, s)
  | v :: rest => (v, { s with free_frames := rest })

/-- Modelled from the spec: the frame allocator, "`free(kernel_vaddr)`": the
frame is the next one handed out again. -/
def free_kpages (s : Kernel) (kvaddr : Nat) : Kernel :=
  { s with free_frames := kvaddr :: s.free_frames }

/-- Modelled from the spec: `bzero` of `lib.h` ("caller zero-fills"): the
`len` bytes from `kvaddr` on become zero. -/
def bzero (s : Kernel) (kvaddr len : Nat) : Kernel :=
  { s with mem := fun x => if kvaddr ≤ x ∧ x < kvaddr + len then 0 else s.mem x }

/-- Modelled from the spec: `proc_getas`, which "returns the calling thread's
owned Address Space, or null if none installed". -/
def proc_getas (s : Kernel) : Option addrspace := s.curproc_as

/-- Modelled from the spec: interrupt control, "`raise_to_high()` →
`prior_level`" (`splhigh` of `spl.h`). -/
def splhigh (s : Kernel) : Nat × Kernel := (s.spl, { s with spl := 1 })

/-- Modelled from the spec: interrupt control, "`restore(prior_level)`"
(`splx` of `spl.h`). -/
def splx (s : Kernel) (level : Nat) : Kernel := { s with spl := level }

/-- Modelled from the spec: the TLB device, "`write_random(hi, lo)`": the call
is recorded. -/
def tlb_random (s : Kernel) (entryhi entrylo : Nat) : Kernel :=
  { s with tlb := s.tlb ++ [tlb_call.random entryhi entrylo] }

/-- Modelled from the spec: the TLB device, "`write_entry(index, hi, lo)`"
(`tlb_write` of `machine/tlb.h`): the call is recorded. -/
def tlb_write (s : Kernel) (entryhi entrylo index : Nat) : Kernel :=
  { s with tlb := s.tlb ++ [tlb_call.write entryhi entrylo index] }

/-- Modelled from the spec: `NUM_TLB` of `machine/tlb.h`, the number of
entries that "invalidate all TLB entries" walks over; 64 on MIPS. -/
def NUM_TLB : Nat := 64

/-- Modelled from the spec: the macro `TLBHI_INVALID` of `machine/tlb.h`, the
high word of an invalidated entry: `(0x80000 + entryno) << 12`. -/
def TLBHI_INVALID (entryno : Nat) : Nat := ((0x80000 + entryno) <<< 12) % WORD

/-- Modelled from the spec: the macro `TLBLO_INVALID` of `machine/tlb.h`, the
low word of an invalidated entry. -/
def TLBLO_INVALID : Nat := 0

/-- Modelled from the spec: `memcpy` of `lib.h` ("content byte-copied from
the source frame"): the `len` bytes from `dst` on become the bytes that the
memory held from `src` on. -/
def memcpy (s : Kernel) (dst src len : Nat) : Kernel :=
  { s with mem := fun x => if dst ≤ x ∧ x < dst + len then s.mem (src + (x - dst)) else s.mem x }

/-! ## Loops -/

/-- The loop `for (i = lo; i < lo + n; i++) st = body(i, st);`. -/
def for_loop {σ : Type} (body : Nat → σ → σ) : Nat → Nat → σ → σ
  | 0, _, st => st
  | n + 1, i, st => for_loop body n (i + 1) (body i st)

/-- The same loop inside a function that returns an `int`: the body gives a
code with the new state, a code that is not 0 is a `return code;` in the
body, and the code is 0 when the loop has run to its end. -/
def for_loop_ret {σ : Type} (body : Nat → σ → Int × σ) : Nat → Nat → σ → Int × σ
  | 0, _, st => (0, st)
  | n + 1, i, st =>
    if (body i st).1 ≠ 0 then body i st
    else for_loop_ret body n (i + 1) (body i st).2

/-! ## `vm.c` -/

/-- `get_8_mostsb`: `address >> 24`. -/
def get_8_mostsb (address : Nat) : Nat := address >>> 24

/-- `get_6_middlesb`: `(address << 8) >> 26` on 32 bits. -/
def get_6_middlesb (address : Nat) : Nat := ((address <<< 8) % WORD) >>> 26

/-- `get_6_leastsb`: `(address << 14) >> 26` on 32 bits. -/
def get_6_leastsb (address : Nat) : Nat := ((address <<< 14) % WORD) >>> 26

/-- The last step of `insertPageTableEntry`, on the level-3 array `l3` that
`pt[mostsb][middlesb]` points to: a slot that already holds a value is an
error, otherwise `paddr` is stored. The result is the return code and the
array after the step. -/
def insertPageTableEntry_leaf (l3 : PTLeaf) (paddr leastsb : Nat) : Int × PTLeaf :=
  if l3 leastsb ≠ 0 then (EFAULT, l3)
  else (0, Function.update l3 leastsb paddr)

/-- The middle step of `insertPageTableEntry`, on the level-2 array `l2` that
`pt[mostsb]` points to: a missing level-3 array is allocated and every slot
of it is set to 0, then the last step runs. -/
def insertPageTableEntry_mid (s : Kernel) (l2 : PTMid) (paddr middlesb leastsb : Nat) :
    Int × PTMid × Kernel :=
  match l2 middlesb with
  | some l3 =>
    let r := insertPageTableEntry_leaf l3 paddr leastsb
    (r.1, Function.update l2 middlesb (some r.2), s)
  | none =>
    match kmalloc s with
    | (none, s1) => (ENOMEM, l2, s1)
    | (some _, s1) =>
      let r := insertPageTableEntry_leaf (fun _ => 0) paddr leastsb
      (r.1, Function.update l2 middlesb (some r.2), s1)

/-- `insertPageTableEntry`. The result is the return code, the table after the
call and the machine state after the call. A missing level-2 array is
allocated and every slot of it is set to `NULL`, then the middle step runs;
when the allocation of the level-3 array fails, the level-2 array made just
before stays in the table. -/
def insertPageTableEntry (s : Kernel) (pt : PTTop) (paddr address : Nat) :
    Int × PTTop × Kernel :=
  let mostsb := get_8_mostsb address
  let middlesb := get_6_middlesb address
  let leastsb := get_6_leastsb address
  if mostsb ≥ PTLEVEL1 ∨ middlesb ≥ PTLEVEL2 ∨ leastsb ≥ PTLEVEL3 then
    (EFAULT, pt, s)
  else
    match pt mostsb with
    | some l2 =>
      let r := insertPageTableEntry_mid s l2 paddr middlesb leastsb
      (r.1, Function.update pt mostsb (some r.2.1), r.2.2)
    | none =>
      match kmalloc s with
      | (none, s1) => (ENOMEM, pt, s1)
      | (some _, s1) =>
        let r := insertPageTableEntry_mid s1 (fun _ => none) paddr middlesb leastsb
        (r.1, Function.update pt mostsb (some r.2.1), r.2.2)

/-- `checkPT`: 0 when the page of `vaddress` has a nonzero leaf, 1 otherwise. -/
def checkPT (pt : Option PTTop) (vaddress : Nat) : Int :=
  let mostsb := get_8_mostsb vaddress
  let middlesb := get_6_middlesb vaddress
  let leastsb := get_6_leastsb vaddress
  if mostsb ≥ PTLEVEL1 ∨ middlesb ≥ PTLEVEL2 ∨ leastsb ≥ PTLEVEL3 then 1
  else
    match pt with
    | none => 1
    | some t =>
      match t mostsb with
      | none => 1
      | some l2 =>
        match l2 middlesb with
        | none => 1
        | some l3 => if l3 leastsb = 0 then 1 else 0

/-- `page_table_lookup`. The read `pt[mostsb][middlesb][leastsb]` happens only
after `checkPT` has returned 0, that is with all three levels present. -/
def page_table_lookup (pt : Option PTTop) (faultaddress : Nat) : Nat :=
  let mostsb := get_8_mostsb faultaddress
  let middlesb := get_6_middlesb faultaddress
  let leastsb := get_6_leastsb faultaddress
  if checkPT pt faultaddress ≠ 0 then 1
  else
    match pt with
    | none => 1
    | some t =>
      match t mostsb with
      | none => 1
      | some l2 =>
        match l2 middlesb with
        | none => 1
        | some l3 => l3 leastsb

/-- `addr_to_region`: the first region of the list that holds `faultaddress`;
the sum `base + size` is a 32-bit sum. -/
def addr_to_region : List as_region → Nat → Option as_region
  | [], _ => none
  | curr :: next, faultaddress =>
    if faultaddress ≥ curr.base ∧ (curr.base + curr.size) % WORD > faultaddress then
      some curr
    else addr_to_region next faultaddress

/-- `insert_into_tlb`. -/
def insert_into_tlb (s : Kernel) (faultaddress new_pte : Nat) : Kernel :=
  let entry_hi := faultaddress &&& TLBHI_VPAGE
  let entry_lo := new_pte
  let r := splhigh s
  let s1 := tlb_random r.2 entry_hi entry_lo
  splx s1 r.1

/-- `vm_fault`. The result is the return code and the machine state after the
call; it is `none` when the call dereferences a `NULL` page table (the
address space has no level-1 array and the populate path reaches
`insertPageTableEntry`). The table is changed in place, so the address space
of the current process holds the table that `insertPageTableEntry` leaves,
also when that call fails. -/
def vm_fault (s : Kernel) (faulttype : Int) (faultaddress : Nat) : Option (Int × Kernel) :=
  if faulttype = VM_FAULT_READONLY then some (EFAULT, s)
  else
    match proc_getas s with
    | none => some (EFAULT, s)
    | some as =>
      let pte := page_table_lookup as.as_pt faultaddress
      if pte &&& TLBLO_VALID ≠ 0 then
        if faulttype = VM_FAULT_WRITE ∧ pte &&& TLBLO_DIRTY = 0 then some (EFAULT, s)
        else some (0, insert_into_tlb s (faultaddress &&& PAGE_FRAME) pte)
      else
        match addr_to_region as.as_regions faultaddress with
        | none => some (EFAULT, s)
        | some fault_region =>
          if faulttype = VM_FAULT_WRITE ∧ fault_region.writeable = 0 then some (EFAULT, s)
          else if faulttype = VM_FAULT_READ ∧ fault_region.readable = 0 then some (EFAULT, s)
          else
            let a := alloc_kpages s
            let new_page := a.1
            if new_page = 0 then some (ENOMEM, a.2)
            else
              let s1 := bzero a.2 new_page PAGE_SIZE
              let new_pte0 := KVADDR_TO_PADDR new_page &&& PAGE_FRAME
              let new_pte1 :=
                if fault_region.writeable ≠ 0 then new_pte0 ||| TLBLO_DIRTY else new_pte0
              let new_pte := new_pte1 ||| TLBLO_VALID
              match as.as_pt with
              | none => none
              | some pt =>
                let r := insertPageTableEntry s1 pt new_pte faultaddress
                let s2 : Kernel :=
                  { r.2.2 with curproc_as := some { as with as_pt := some r.2.1 } }
                if r.1 ≠ 0 then some (r.1, free_kpages s2 new_page)
                else some (0, insert_into_tlb s2 (faultaddress &&& PAGE_FRAME) new_pte)

/-! ## `addrspace.c` -/

/-- The loop of `as_define_region` that walks to the last node: `true` when
the walk stops with the overlap error. The last node ends the loop and is
not tested; the tops are 32-bit values. -/
def as_define_region_walk (vaddr memsize : Nat) : List as_region → Bool
  | [] => false
  | [_] => false
  | curr :: next :: rest =>
    let curr_base := curr.base
    let curr_top := (curr.base + curr.size + WORD - 1) % WORD
    let vaddr_top := (vaddr + memsize + WORD - 1) % WORD
    if (vaddr < curr_base ∧ vaddr_top < curr_top) ∨
        (vaddr > curr_base ∧ vaddr_top < curr_top) ∨
        (vaddr < curr_top ∧ vaddr_top > curr_top) then true
    else as_define_region_walk vaddr memsize (next :: rest)

/-- The end of `as_define_region`, at the last node `curr` of a nonempty list
(`front` is the list before it): a last node of positive size gets a new node
after it, a last node of size 0 is written over. -/
def as_define_region_last (s : Kernel) (front : List as_region) (curr : as_region)
    (vaddr memsize : Nat) (readable writeable executable : Int) :
    Int × List as_region × Kernel :=
  let node : as_region :=
    { base := vaddr, size := memsize, readable := readable, writeable := writeable,
      executable := executable, old_writeable := 0 }
  if curr.size > 0 then
    match kmalloc s with
    | (none, s1) => (EFAULT, front ++ [curr], s1)
    | (some _, s1) => (0, front ++ [curr, node], s1)
  else (0, front ++ [node], s)

/-- `as_define_region`. The result is the return code, the address space
after the call and the machine state after the call. The first node of a list
is made without writing its `old_writeable` field, which keeps what the
allocated block held. -/
def as_define_region (s : Kernel) (as : Option addrspace) (vaddr memsize : Nat)
    (readable writeable executable : Int) : Int × Option addrspace × Kernel :=
  match as with
  | none => (EFAULT, none, s)
  | some a =>
    match a.as_regions with
    | [] =>
      match kmalloc s with
      | (none, s1) => (ENOMEM, some a, s1)
      | (some g, s1) =>
        (0, some { a with as_regions :=
          [{ base := vaddr, size := memsize, readable := readable, writeable := writeable,
             executable := executable, old_writeable := g }] }, s1)
    | r :: rs =>
      if as_define_region_walk vaddr memsize (r :: rs) then (EBADF, some a, s)
      else
        let t := as_define_region_last s ((r :: rs).dropLast) ((r :: rs).getLast (by simp))
          vaddr memsize readable writeable executable
        (t.1, some { a with as_regions := t.2.1 }, t.2.2)

/-- `as_create`: the new address space (`none` for `NULL`) and the machine
state after the call. Every slot of the level-1 array is set to `NULL`. -/
def as_create (s : Kernel) : Option addrspace × Kernel :=
  match kmalloc s with
  | (none, s1) => (none, s1)
  | (some _, s1) =>
    match kmalloc s1 with
    | (none, s2) => (none, s2)
    | (some _, s2) => (some { as_regions := [], as_pt := some (fun _ => none) }, s2)

/-- `as_activate`: every entry of the TLB is written with the invalid pair, at
the high interrupt level; nothing happens when the process has no address
space. -/
def as_activate (s : Kernel) : Kernel :=
  match proc_getas s with
  | none => s
  | some _ =>
    let r := splhigh s
    let s1 := for_loop (fun i st => tlb_write st (TLBHI_INVALID i) TLBLO_INVALID i) NUM_TLB 0 r.2
    splx s1 r.1

/-- `as_deactivate`. -/
def as_deactivate (s : Kernel) : Kernel := as_activate s

/-- `as_prepare_load`: the return code and the address space after the call.
The walk over the list stores `writeable` in `old_writeable` and sets
`writeable` to 2 in every node. -/
def as_prepare_load (as : Option addrspace) : Int × Option addrspace :=
  match as with
  | none => (EFAULT, none)
  | some a =>
    if a.as_regions = [] then (EFAULT, some a)
    else
      (0, some { a with as_regions :=
        a.as_regions.map (fun curr => { curr with old_writeable := curr.writeable,
                                                  writeable := 2 }) })

/-- `get_address`. The arguments are `int`; the shifts are taken as the 32-bit
patterns that the conversion to `vaddr_t` gives. -/
def get_address (first_level second_level third_level : Nat) : Nat :=
  let mostsb := (first_level <<< 24) % WORD
  let middlesb := (second_level <<< 18) % WORD
  let leastsb := (third_level <<< 12) % WORD
  mostsb ||| middlesb ||| leastsb

/-- The walk of `find_region` over the list `as->as_regions`: the first
region that holds `vaddr`; the sum `size + base` is a 32-bit sum. -/
def find_region_walk : List as_region → Nat → Option as_region
  | [], _ => none
  | curr :: next, vaddr =>
    if curr.base ≤ vaddr ∧ (curr.size + curr.base) % WORD > vaddr then some curr
    else find_region_walk next vaddr

/-- `find_region`. -/
def find_region (as : addrspace) (vaddr : Nat) : Option as_region :=
  find_region_walk as.as_regions vaddr

/-- The body of the innermost loop of `as_complete_load`, on the level-3 array
`PT[i][j]`: the value of the slot `k` after the step. A leaf that is not 0
and whose page address lies in a region with `old_writeable == 0` keeps its
frame, gets the valid bit and loses every other status bit; a leaf whose page
address lies in no region is skipped. -/
def as_complete_load_entry (as : addrspace) (i j k : Nat) (entry : Nat) : Nat :=
  if entry ≠ 0 then
    let vaddr := get_address i j k
    match find_region as vaddr with
    | none => entry
    | some region =>
      if region.old_writeable = 0 then (entry &&& PAGE_FRAME) ||| TLBLO_VALID
      else entry
  else entry

/-- The innermost loop step of `as_complete_load`: only the slot `k` of the
level-3 array is written. -/
def as_complete_load_leaf (as : addrspace) (i j k : Nat) (l3 : PTLeaf) : PTLeaf :=
  Function.update l3 k (as_complete_load_entry as i j k (l3 k))

/-- The middle loop step of `as_complete_load`, on the level-2 array `PT[i]`:
a level-3 array that is present is walked in place, a `NULL` slot stays
`NULL`. -/
def as_complete_load_mid (as : addrspace) (i j : Nat) (l2 : PTMid) : PTMid :=
  Function.update l2 j
    (match l2 j with
     | none => none
     | some l3 => some (for_loop (as_complete_load_leaf as i j) PTLEVEL3 0 l3))

/-- The outer loop step of `as_complete_load`, on the level-1 array: a level-2
array that is present is walked in place, a `NULL` slot stays `NULL`. -/
def as_complete_load_top (as : addrspace) (i : Nat) (PT : PTTop) : PTTop :=
  Function.update PT i
    (match PT i with
     | none => none
     | some l2 => some (for_loop (as_complete_load_mid as i) PTLEVEL2 0 l2))

/-- `as_complete_load`: the return code, the address space after the call and
the machine state after the call; `none` when the call dereferences a `NULL`
page table. The regions are those of `as` all through the walk over the
table; the walk over the list then puts `old_writeable` back into
`writeable` in every node. -/
def as_complete_load (s : Kernel) (as : Option addrspace) :
    Option (Int × Option addrspace × Kernel) :=
  match as with
  | none => some (EFAULT, none, s)
  | some a =>
    if a.as_regions = [] then some (EFAULT, some a, s)
    else
      let s1 := as_activate s
      match a.as_pt with
      | none => none
      | some PT =>
        let PT1 := for_loop (as_complete_load_top a) PTLEVEL1 0 PT
        some (0, some { as_regions :=
                          a.as_regions.map (fun curr =>
                            { curr with writeable := curr.old_writeable }),
                        as_pt := some PT1 }, s1)

/-- `as_define_stack`: the return code, the value written to `*stackptr`
(`none` when nothing is written), the address space after the call and the
machine state after the call. -/
def as_define_stack (s : Kernel) (as : Option addrspace) :
    Int × Option Nat × Option addrspace × Kernel :=
  match as with
  | none => (EFAULT, none, none, s)
  | some a =>
    let stack_size := N_STACKPAGES * PAGE_SIZE
    let stackptr := USERSTACK
    let r := as_define_region s (some a) ((stackptr + WORD - stack_size) % WORD) stack_size 4 2 0
    (r.1, some stackptr, r.2.1, r.2.2)

/-- The body of the innermost loop of `copy_Page_Table`, on the new level-3
array and the machine state: a leaf of the old array that is not 0 gets a
fresh frame, zero-filled and then filled with the bytes of the old frame, and
the new leaf is the fresh frame with the valid bit and the dirty bit of the
old leaf; `memcpy` returns its first argument, which is not `NULL` here. -/
def copy_Page_Table_leaf (old3 : PTLeaf) (k : Nat) (st : PTLeaf × Kernel) :
    Int × (PTLeaf × Kernel) :=
  if old3 k ≠ 0 then
    let a := alloc_kpages st.2
    let fresh_frame := a.1
    if fresh_frame = 0 then (ENOMEM, (st.1, a.2))
    else
      let s1 := bzero a.2 fresh_frame PAGE_SIZE
      let s2 := memcpy s1 fresh_frame (PADDR_TO_KVADDR (old3 k &&& PAGE_FRAME)) PAGE_SIZE
      let dirty_bit := old3 k &&& TLBLO_DIRTY
      (0, (Function.update st.1 k
        ((KVADDR_TO_PADDR fresh_frame &&& PAGE_FRAME) ||| TLBLO_VALID ||| dirty_bit), s2))
  else (0, (Function.update st.1 k 0, st.2))

/-- The body of the middle loop of `copy_Page_Table`, on the new level-2
array and the machine state. -/
def copy_Page_Table_mid (old2 : PTMid) (j : Nat) (st : PTMid × Kernel) :
    Int × (PTMid × Kernel) :=
  match old2 j with
  | none => (0, (Function.update st.1 j none, st.2))
  | some old3 =>
    match kmalloc st.2 with
    | (none, s1) => (ENOMEM, (Function.update st.1 j none, s1))
    | (some _, s1) =>
      let r := for_loop_ret (copy_Page_Table_leaf old3) PTLEVEL3 0 (fun _ => 0, s1)
      (r.1, (Function.update st.1 j (some r.2.1), r.2.2))

/-- The body of the outer loop of `copy_Page_Table`, on the new level-1 array
and the machine state. -/
def copy_Page_Table_top (oldPT : PTTop) (i : Nat) (st : PTTop × Kernel) :
    Int × (PTTop × Kernel) :=
  match oldPT i with
  | none => (0, (Function.update st.1 i none, st.2))
  | some old2 =>
    match kmalloc st.2 with
    | (none, s1) => (ENOMEM, (Function.update st.1 i none, s1))
    | (some _, s1) =>
      let r := for_loop_ret (copy_Page_Table_mid old2) PTLEVEL2 0 (fun _ => none, s1)
      (r.1, (Function.update st.1 i (some r.2.1), r.2.2))

/-- `copy_Page_Table`: the return code, the new table and the machine state
after the call. Every slot of a new array is written before the loop over the
array ends; when the code is not 0 the slots of the last arrays that the loop
has not reached hold what the allocated blocks held, and the table returned
here shows them as `NULL` or 0. -/
def copy_Page_Table (s : Kernel) (oldPT newPT : PTTop) : Int × PTTop × Kernel :=
  let r := for_loop_ret (copy_Page_Table_top oldPT) PTLEVEL1 0 (newPT, s)
  (r.1, r.2.1, r.2.2)

/-- The loop of `as_copy` over the old list: every node is copied field by
field into a new node, which becomes the head of the new list when the list
is empty and the successor of its last node otherwise. The result is the
return code, the new list and the machine state. -/
def as_copy_regions (s : Kernel) : List as_region → List as_region →
    Int × List as_region × Kernel
  | [], new_list => (0, new_list, s)
  | old_curr :: rest, new_list =>
    match kmalloc s with
    | (none, s1) => (ENOMEM, new_list, s1)
    | (some _, s1) =>
      let temp : as_region :=
        { size := old_curr.size, base := old_curr.base, readable := old_curr.readable,
          writeable := old_curr.writeable, executable := old_curr.executable,
          old_writeable := old_curr.old_writeable }
      as_copy_regions s1 rest (new_list ++ [temp])

/-- `as_copy`: the return code, the address space written to `*ret` (`none`
when nothing is written) and the machine state after the call. The result is
`none` when `copy_Page_Table` fails: `as_destroy` then walks a new table
whose last arrays are partly unwritten, and the embedding does not follow
it. -/
def as_copy (s : Kernel) (old : Option addrspace) :
    Option (Int × Option addrspace × Kernel) :=
  match old with
  | none => some (EINVAL, none, s)
  | some o =>
    match o.as_regions, o.as_pt with
    | [], _ => some (EFAULT, none, s)
    | _ :: _, none => some (EFAULT, none, s)
    | r :: rs, some old_pt =>
      match as_create s with
      | (none, s1) => some (ENOMEM, none, s1)
      | (some newas, s1) =>
        let c := as_copy_regions s1 (r :: rs) newas.as_regions
        if c.1 ≠ 0 then some (c.1, none, c.2.2)
        else
          match newas.as_pt with
          | none => none
          | some new_pt =>
            let found := copy_Page_Table c.2.2 old_pt new_pt
            if found.1 ≠ 0 then none
            else some (0, some { as_regions := c.2.1, as_pt := some found.2.1 }, found.2.2)

/-! ## Notions used to state the properties -/

/-- The leaf `pt[i][j][k]`, read as 0 where the table, the level-2 array or
the level-3 array on the way is absent. -/
def leaf_at (pt : Option PTTop) (i j k : Nat) : Nat :=
  match pt with
  | none => 0
  | some t =>
    match t i with
    | none => 0
    | some l2 =>
      match l2 j with
      | none => 0
      | some l3 => l3 k

/-- The leaf of the page of the address `a`. -/
def page_leaf (pt : Option PTTop) (a : Nat) : Nat :=
  leaf_at pt (get_8_mostsb a) (get_6_middlesb a) (get_6_leastsb a)

/-- The first `n` outcomes of the list are successes. -/
def heap_succeeds : List (Option Int) → Nat → Bool
  | _, 0 => true
  | some _ :: rest, n + 1 => heap_succeeds rest n
  | _, _ => false

/-- The next `n` calls of `kmalloc` succeed. -/
def kmalloc_succeeds (s : Kernel) (n : Nat) : Prop := heap_succeeds s.kheap n = true

instance (s : Kernel) (n : Nat) : Decidable (kmalloc_succeeds s n) := by
  unfold kmalloc_succeeds; infer_instance

/-! ## Example states

The fault scenario of the testable properties: one region `[0x1000, 0x3000)`
and a page table without entries. -/

/-- A level-1 array with every slot `NULL`, as `as_create` leaves it. -/
def empty_pt : PTTop := fun _ => none

/-- The region `[0x1000, 0x3000)`, readable and writeable. -/
def region_rw : as_region :=
  { base := 0x1000, size := 0x2000, readable := 4, writeable := 2, executable := 0,
    old_writeable := 0 }

/-- The region `[0x1000, 0x3000)`, readable and executable, not writeable. -/
def region_ro : as_region :=
  { base := 0x1000, size := 0x2000, readable := 4, writeable := 0, executable := 1,
    old_writeable := 0 }

/-- The region `[0x5000, 0x6000)`, readable and writeable. -/
def region_mid : as_region :=
  { base := 0x5000, size := 0x1000, readable := 4, writeable := 2, executable := 0,
    old_writeable := 0 }

/-- The region `[0x8000, 0x9000)`, readable and writeable. -/
def region_high : as_region :=
  { base := 0x8000, size := 0x1000, readable := 4, writeable := 2, executable := 0,
    old_writeable := 0 }

/-- The regions of an address space given by pointer (none for `NULL`). -/
def regions_of (as : Option addrspace) : List as_region :=
  match as with
  | some a => a.as_regions
  | none => []

/-- An address space with the given regions and an empty page table. -/
def as_with (regions : List as_region) : addrspace :=
  { as_regions := regions, as_pt := some empty_pt }

/-- A machine whose current process has the given regions and an empty page
table, with two blocks left on the heap and two free frames. -/
def kernel_with (regions : List as_region) : Kernel :=
  { curproc_as := some (as_with regions), kheap := [some 0, some 0],
    free_frames := [0x80005000, 0x80006000], mem := fun _ => 0xAA, tlb := [], spl := 0 }

/-- The address space of the current process (one without regions and without
page table when the process has none). -/
def current_as (s : Kernel) : addrspace :=
  match proc_getas s with
  | some a => a
  | none => { as_regions := [], as_pt := none }

/-- The machine that a fault of the given type at `a` leaves (the machine
itself when the call does not return). -/
def kernel_after_fault (s : Kernel) (faulttype : Int) (a : Nat) : Kernel :=
  match vm_fault s faulttype a with
  | some r => r.2
  | none => s

/-- The leaf `l3[k]` of a level-3 array given by pointer, read as 0 where the
array is absent. -/
def leaf_low (l3 : Option PTLeaf) (k : Nat) : Nat :=
  match l3 with
  | none => 0
  | some t => t k

/-- The leaf `l2[j][k]` of a level-2 array given by pointer, read as 0 where
an array on the way is absent. -/
def leaf_mid (l2 : Option PTMid) (j k : Nat) : Nat :=
  match l2 with
  | none => 0
  | some t => leaf_low (t j) k

/-- The machine of the fault scenario with one block left on the heap: an
insert into the empty table gets its level-2 array and fails on the level-3
array. -/
def kernel_one_block : Kernel :=
  { kernel_with [region_rw] with kheap := [some 0] }

/-- A region of size 0 at `0x4000`. -/
def region_empty : as_region :=
  { base := 0x4000, size := 0, readable := 4, writeable := 2, executable := 0,
    old_writeable := 0 }

/-- A read-only region whose base is not page-aligned: `[0x1800, 0x2000)`,
readable and executable, not writeable. -/
def region_text : as_region :=
  { base := 0x1800, size := 0x800, readable := 4, writeable := 0, executable := 1,
    old_writeable := 0 }

/-- The load scenario, first step: the address space with the region
`region_text` after `as_prepare_load`. -/
def load_prepared : Option addrspace :=
  (as_prepare_load (some (as_with [region_text]))).2

/-- The load scenario, second step: the machine after a WRITE fault at
`0x1800`, the first byte of the region, as the program loader makes. -/
def load_faulted : Kernel :=
  kernel_after_fault { kernel_with [] with curproc_as := load_prepared } VM_FAULT_WRITE 0x1800

/-- The load scenario, third step: the result of `as_complete_load` on the
address space of the process. -/
def load_completed : Option (Int × Option addrspace × Kernel) :=
  as_complete_load load_faulted (proc_getas load_faulted)

/-- The address space that a call leaves, from its result (the address space
without regions and page table where there is none). -/
def as_after (r : Option (Int × Option addrspace × Kernel)) : addrspace :=
  match r with
  | some (_, some a, _) => a
  | _ => { as_regions := [], as_pt := none }

/-- The return code of a call, from its result (`none` when the call does not
return). -/
def code_of (r : Option (Int × Option addrspace × Kernel)) : Option Int :=
  r.map (fun x => x.1)

/-- Every leaf of the table is 0 or has the valid bit. -/
def leaves_valid (pt : Option PTTop) : Prop :=
  ∀ i j k, leaf_at pt i j k = 0 ∨ leaf_at pt i j k &&& TLBLO_VALID ≠ 0

/-- The address spaces that are reachable from `as_create` by calls of
`as_define_region`, `as_define_stack`, `as_prepare_load`, `vm_fault` (on the
address space of the current process), `as_complete_load` and `as_copy`, each
call in any machine state, with any arguments and with any outcome. -/
inductive reachable : addrspace → Prop
  | create (s : Kernel) (a : addrspace) :
      (as_create s).1 = some a → reachable a
  | define_region (s : Kernel) (a a1 : addrspace) (vaddr memsize : Nat)
      (readable writeable executable : Int) :
      reachable a →
      (as_define_region s (some a) vaddr memsize readable writeable executable).2.1 = some a1 →
      reachable a1
  | define_stack (s : Kernel) (a a1 : addrspace) :
      reachable a → (as_define_stack s (some a)).2.2.1 = some a1 → reachable a1
  | prepare_load (a a1 : addrspace) :
      reachable a → (as_prepare_load (some a)).2 = some a1 → reachable a1
  | fault (s s1 : Kernel) (a a1 : addrspace) (faulttype ret : Int) (faultaddress : Nat) :
      reachable a → proc_getas s = some a →
      vm_fault s faulttype faultaddress = some (ret, s1) → proc_getas s1 = some a1 →
      reachable a1
  | complete_load (s s1 : Kernel) (a a1 : addrspace) (ret : Int) :
      reachable a → as_complete_load s (some a) = some (ret, some a1, s1) → reachable a1
  | copy (s s1 : Kernel) (a a1 : addrspace) :
      reachable a → as_copy s (some a) = some (0, some a1, s1) → reachable a1

/-- The machine in which the address space of the fault scenario is copied:
six blocks left on the heap and two free frames that no leaf refers to. -/
def kernel_for_copy : Kernel :=
  { curproc_as := none, kheap := [some 0, some 0, some 0, some 0, some 0, some 0],
    free_frames := [0x80007000, 0x80008000], mem := fun x => x % 251, tlb := [], spl := 0 }

/-- The byte at `x` lies in the frame at the kernel address `f`. -/
def in_frame (f x : Nat) : Prop := f ≤ x ∧ x < f + PAGE_SIZE

/-- The kernel address of the frame of a packed leaf. -/
def frame_of (leaf : Nat) : Nat := PADDR_TO_KVADDR (leaf &&& PAGE_FRAME)

/-- The frames of the list are frames not in use: each is a page-aligned
32-bit address, no frame comes twice, and none is the frame of a leaf of the
table `old`. -/
def frames_unused (frames : List Nat) (old : PTTop) : Prop :=
  (∀ f ∈ frames, f % PAGE_SIZE = 0 ∧ f < WORD) ∧
  frames.Nodup ∧
  ∀ f ∈ frames, ∀ i j k, leaf_at (some old) i j k ≠ 0 →
    f ≠ frame_of (leaf_at (some old) i j k)

/-- From the machine `s` to the machine `t`, frames have been taken from the
head of the free list and the memory has changed inside taken frames only. -/
def frames_taken (s t : Kernel) : Prop :=
  t.free_frames <:+ s.free_frames ∧
  ∀ x, t.mem x ≠ s.mem x → ∃ f, f ∈ s.free_frames ∧ f ∉ t.free_frames ∧ in_frame f x

/-- In the machine `t`, the leaf `n` is the copy of the leaf `o` that a copy
started in the machine `s0` has made: 0 for 0, and otherwise a frame taken
from the free list of `s0`, packed with the valid bit and the dirty bit of
`o`, that holds the bytes which the frame of `o` held in `s0`. -/
def leaf_copied (s0 t : Kernel) (o n : Nat) : Prop :=
  (o = 0 → n = 0) ∧
  (o ≠ 0 → ∃ f, f ∈ s0.free_frames ∧ f ∉ t.free_frames ∧
    n = (KVADDR_TO_PADDR f &&& PAGE_FRAME) ||| TLBLO_VALID ||| (o &&& TLBLO_DIRTY) ∧
    ∀ off, off < PAGE_SIZE → t.mem (f + off) = s0.mem (frame_of o + off))

/-- A page table with one leaf: `0x5600` (frame `0x5000`, valid, dirty) for
the page of `0x1500`. -/
def pt_one_page : PTTop :=
  (insertPageTableEntry (kernel_with []) empty_pt 0x5600 0x1500).2.1

theorem index_in_range (a : Nat) (h : a < WORD) :
    ¬ (get_8_mostsb a ≥ PTLEVEL1 ∨ get_6_middlesb a ≥ PTLEVEL2 ∨ get_6_leastsb a ≥ PTLEVEL3) := by
  have h1 : get_8_mostsb a < PTLEVEL1 := by
    unfold get_8_mostsb PTLEVEL1; unfold WORD at h
    rw [Nat.shiftRight_eq_div_pow]; omega
  have h2 : get_6_middlesb a < PTLEVEL2 := by
    unfold get_6_middlesb PTLEVEL2 WORD
    rw [Nat.shiftRight_eq_div_pow]; omega
  have h3 : get_6_leastsb a < PTLEVEL3 := by
    unfold get_6_leastsb PTLEVEL3 WORD
    rw [Nat.shiftRight_eq_div_pow]; omega
  omega

theorem same_page_mostsb (a b : Nat) (h : b >>> 12 = a >>> 12) :
    get_8_mostsb b = get_8_mostsb a := by
  unfold get_8_mostsb
  simp only [Nat.shiftRight_eq_div_pow] at *
  omega

theorem same_page_middlesb (a b : Nat) (h : b >>> 12 = a >>> 12) :
    get_6_middlesb b = get_6_middlesb a := by
  unfold get_6_middlesb WORD
  simp only [Nat.shiftRight_eq_div_pow, Nat.shiftLeft_eq] at *
  omega

theorem same_page_leastsb (a b : Nat) (h : b >>> 12 = a >>> 12) :
    get_6_leastsb b = get_6_leastsb a := by
  unfold get_6_leastsb WORD
  simp only [Nat.shiftRight_eq_div_pow, Nat.shiftLeft_eq] at *
  omega

theorem same_page_leaf (pt : Option PTTop) (a b : Nat) (h : b >>> 12 = a >>> 12) :
    page_leaf pt b = page_leaf pt a := by
  unfold page_leaf
  rw [same_page_mostsb a b h, same_page_middlesb a b h, same_page_leastsb a b h]

theorem same_page_word (a b : Nat) (h : b >>> 12 = a >>> 12) (ha : a < WORD) : b < WORD := by
  unfold WORD at *
  simp only [Nat.shiftRight_eq_div_pow] at h
  omega

theorem one_and_valid : 1 &&& TLBLO_VALID = 0 := by decide

theorem or_and_self (x v : Nat) : (x ||| v) &&& v = v := by
  apply Nat.eq_of_testBit_eq
  intro i
  simp only [Nat.testBit_and, Nat.testBit_or]
  cases x.testBit i <;> cases v.testBit i <;> rfl

theorem or_valid_and_valid (x : Nat) : (x ||| TLBLO_VALID) &&& TLBLO_VALID ≠ 0 := by
  rw [or_and_self]; decide

theorem or_dirty_valid_and_dirty (x : Nat) :
    ((x ||| TLBLO_DIRTY) ||| TLBLO_VALID) &&& TLBLO_DIRTY ≠ 0 := by
  rw [Nat.or_assoc, Nat.or_comm TLBLO_DIRTY, ← Nat.or_assoc, or_and_self]; decide

theorem page_frame_vpage (a : Nat) : (a &&& PAGE_FRAME) &&& TLBHI_VPAGE = a &&& PAGE_FRAME := by
  rw [Nat.and_assoc]
  have h : PAGE_FRAME &&& TLBHI_VPAGE = PAGE_FRAME := by decide
  rw [h]

theorem checkPT_of_leaf_zero (pt : Option PTTop) (a : Nat) (h : page_leaf pt a = 0) :
    checkPT pt a = 1 := by
  unfold page_leaf leaf_at at h
  unfold checkPT
  simp only
  split
  · rfl
  · cases pt with
    | none => rfl
    | some t =>
      simp only at h ⊢
      cases h1 : t (get_8_mostsb a) with
      | none => rfl
      | some l2 =>
        simp only [h1] at h ⊢
        cases h2 : l2 (get_6_middlesb a) with
        | none => rfl
        | some l3 =>
          simp only [h2] at h ⊢
          simp [h]

theorem lookup_of_leaf_zero (pt : Option PTTop) (a : Nat) (h : page_leaf pt a = 0) :
    page_table_lookup pt a = 1 := by
  unfold page_table_lookup
  simp [checkPT_of_leaf_zero pt a h]

theorem lookup_of_leaf_ne_zero (pt : Option PTTop) (a : Nat) (ha : a < WORD)
    (h : page_leaf pt a ≠ 0) : page_table_lookup pt a = page_leaf pt a := by
  unfold page_leaf leaf_at at h ⊢
  unfold page_table_lookup checkPT
  have hr := index_in_range a ha
  simp only [if_neg hr]
  cases pt with
  | none => simp at h
  | some t =>
    simp only at h ⊢
    cases h1 : t (get_8_mostsb a) with
    | none => simp [h1] at h
    | some l2 =>
      simp only [h1] at h ⊢
      cases h2 : l2 (get_6_middlesb a) with
      | none => simp [h2] at h
      | some l3 =>
        simp only [h2] at h ⊢
        simp [h]

/-- A successful insert leaves `paddr` in the leaf of the page. -/
theorem insert_leaf_ok (s : Kernel) (pt : PTTop) (p a : Nat)
    (h : (insertPageTableEntry s pt p a).1 = 0) :
    page_leaf (some (insertPageTableEntry s pt p a).2.1) a = p := by
  unfold insertPageTableEntry at h ⊢
  unfold page_leaf leaf_at
  simp only at h ⊢
  split at h
  · simp [EFAULT] at h
  · rename_i hr
    simp only [if_neg hr]
    cases h1 : pt (get_8_mostsb a) with
    | some l2 =>
      simp only [h1, insertPageTableEntry_mid] at h ⊢
      cases h2 : l2 (get_6_middlesb a) with
      | some l3 =>
        simp only [h2, insertPageTableEntry_leaf] at h ⊢
        by_cases h3 : l3 (get_6_leastsb a) = 0
        · simp [h3]
        · simp [h3, EFAULT] at h
      | none =>
        simp only [h2] at h ⊢
        cases hk : s.kheap with
        | nil => simp [kmalloc, hk, ENOMEM] at h
        | cons x rest =>
          cases x with
          | none => simp [kmalloc, hk, ENOMEM] at h
          | some g => simp [kmalloc, hk, insertPageTableEntry_leaf]
    | none =>
      simp only [h1] at h ⊢
      cases hk : s.kheap with
      | nil => simp [kmalloc, hk, ENOMEM] at h
      | cons x rest =>
        cases x with
        | none => simp [kmalloc, hk, ENOMEM] at h
        | some g =>
          simp only [kmalloc, hk, insertPageTableEntry_mid] at h ⊢
          cases hk2 : rest with
          | nil => simp [hk2, ENOMEM] at h
          | cons y rest2 =>
            cases y with
            | none => simp [hk2, ENOMEM] at h
            | some g2 => simp [hk2, insertPageTableEntry_leaf]

/-- An insert on a page whose leaf is nonzero fails and changes nothing. -/
theorem insert_present (s : Kernel) (pt : PTTop) (p a : Nat)
    (h : page_leaf (some pt) a ≠ 0) :
    insertPageTableEntry s pt p a = (EFAULT, pt, s) := by
  unfold page_leaf leaf_at at h
  unfold insertPageTableEntry
  simp only at h ⊢
  split
  · rfl
  · cases h1 : pt (get_8_mostsb a) with
    | none => simp [h1] at h
    | some l2 =>
      simp only [h1] at h ⊢
      cases h2 : l2 (get_6_middlesb a) with
      | none => simp [h2] at h
      | some l3 =>
        simp only [h2] at h
        simp only [insertPageTableEntry_mid, h2, insertPageTableEntry_leaf, if_pos h]
        rw [← h2, Function.update_eq_self, ← h1, Function.update_eq_self]

theorem addr_to_region_none (regions : List as_region) (a : Nat)
    (h : ∀ r ∈ regions, ¬ (r.base ≤ a ∧ a < r.base + r.size)) :
    addr_to_region regions a = none := by
  induction regions with
  | nil => rfl
  | cons r rs ih =>
    unfold addr_to_region
    have hr := h r (List.mem_cons_self r rs)
    have hle : (r.base + r.size) % WORD ≤ r.base + r.size := Nat.mod_le _ _
    rw [if_neg (by omega)]
    exact ih (fun r1 h1 => h r1 (List.mem_cons_of_mem r h1))

theorem insert_into_tlb_eq (s : Kernel) (a pte : Nat) :
    insert_into_tlb s (a &&& PAGE_FRAME) pte =
      { s with tlb := s.tlb ++ [tlb_call.random (a &&& PAGE_FRAME) pte] } := by
  simp [insert_into_tlb, splhigh, splx, tlb_random, page_frame_vpage]

/-- C3. A fault of any type (READ and WRITE among them) on a page without a
leaf, at an address that lies in no region (`r.base ≤ a < r.base + r.size`
for no region `r`), returns `EFAULT` and leaves the whole machine state as it
was: no frame is taken, the page table and the region list are unchanged. -/
theorem vm_fault_outside_regions (s : Kernel) (as : addrspace) (faulttype : Int) (a : Nat)
    (has : proc_getas s = some as) (hno : page_leaf as.as_pt a = 0)
    (hout : ∀ r ∈ as.as_regions, ¬ (r.base ≤ a ∧ a < r.base + r.size)) :
    vm_fault s faulttype a = some (EFAULT, s) := by
  unfold vm_fault
  split
  · rfl
  · simp only [has, lookup_of_leaf_zero _ _ hno, one_and_valid, addr_to_region_none _ _ hout]
    simp

/-- Witness of C3: a READ fault at `0x5000`, outside the region
`[0x1000, 0x3000)`. -/
theorem vm_fault_outside_regions_witness :
    page_leaf (as_with [region_rw]).as_pt 0x5000 = 0 ∧
    (∀ r ∈ (as_with [region_rw]).as_regions, ¬ (r.base ≤ 0x5000 ∧ 0x5000 < r.base + r.size)) ∧
    vm_fault (kernel_with [region_rw]) VM_FAULT_READ 0x5000 =
      some (EFAULT, kernel_with [region_rw]) :=
  ⟨by decide, by decide,
    vm_fault_outside_regions (kernel_with [region_rw]) (as_with [region_rw]) VM_FAULT_READ
      0x5000 rfl (by decide) (by decide)⟩

/-- C5. A fault of type `VM_FAULT_READONLY` returns `EFAULT` in every machine
state and at every address, whatever the current address space, the
allocators and the TLB hold (also with no address space or no page table),
and leaves the whole machine state as it was. -/
theorem vm_fault_readonly (s : Kernel) (faultaddress : Nat) :
    vm_fault s VM_FAULT_READONLY faultaddress = some (EFAULT, s) := by
  simp [vm_fault]

theorem lookup_valid_is_leaf (pt : Option PTTop) (a : Nat) (ha : a < WORD)
    (hv : page_table_lookup pt a &&& TLBLO_VALID ≠ 0) :
    page_table_lookup pt a = page_leaf pt a := by
  by_cases h : page_leaf pt a = 0
  · rw [lookup_of_leaf_zero pt a h] at hv
    exact absurd one_and_valid hv
  · exact lookup_of_leaf_ne_zero pt a ha h

theorem valid_ne_zero (p : Nat) (hv : p &&& TLBLO_VALID ≠ 0) : p ≠ 0 := by
  intro h0
  rw [h0] at hv
  simp at hv

/-- The warm path: the leaf of the page is valid. -/
theorem fault_on_valid_leaf (s : Kernel) (as : addrspace) (faulttype : Int) (a : Nat)
    (has : proc_getas s = some as) (ha : a < WORD) (hro : faulttype ≠ VM_FAULT_READONLY)
    (hv : page_leaf as.as_pt a &&& TLBLO_VALID ≠ 0) :
    vm_fault s faulttype a =
      if faulttype = VM_FAULT_WRITE ∧ page_leaf as.as_pt a &&& TLBLO_DIRTY = 0 then
        some (EFAULT, s)
      else some (0, { s with tlb := s.tlb ++
        [tlb_call.random (a &&& PAGE_FRAME) (page_leaf as.as_pt a)] }) := by
  have hl := lookup_of_leaf_ne_zero as.as_pt a ha (valid_ne_zero _ hv)
  unfold vm_fault
  simp only [if_neg hro, has, hl, insert_into_tlb_eq]
  rw [if_pos hv]

/-- After a successful READ or WRITE fault the leaf of the page is valid, and
it is dirty when the fault was a WRITE. -/
theorem leaf_after_fault (s s1 : Kernel) (faulttype : Int) (a : Nat) (ha : a < WORD)
    (hro : faulttype ≠ VM_FAULT_READONLY)
    (h : vm_fault s faulttype a = some (0, s1)) :
    ∃ as1, proc_getas s1 = some as1 ∧ page_leaf as1.as_pt a &&& TLBLO_VALID ≠ 0 ∧
      (faulttype = VM_FAULT_WRITE → page_leaf as1.as_pt a &&& TLBLO_DIRTY ≠ 0) := by
  unfold vm_fault at h
  rw [if_neg hro] at h
  cases has : proc_getas s with
  | none => simp [has, EFAULT] at h
  | some as =>
    simp only [has] at h
    by_cases hv : page_table_lookup as.as_pt a &&& TLBLO_VALID ≠ 0
    · rw [if_pos hv] at h
      have hl := lookup_valid_is_leaf as.as_pt a ha hv
      by_cases hw : faulttype = VM_FAULT_WRITE ∧ page_table_lookup as.as_pt a &&& TLBLO_DIRTY = 0
      · simp [if_pos hw, EFAULT] at h
      · rw [if_neg hw, insert_into_tlb_eq] at h
        simp only [Option.some.injEq, Prod.mk.injEq, true_and] at h
        subst h
        refine ⟨as, has, ?_, ?_⟩
        · rw [← hl]; exact hv
        · intro ht
          rw [← hl]
          exact fun hd => hw ⟨ht, hd⟩
    · rw [if_neg hv] at h
      cases hreg : addr_to_region as.as_regions a with
      | none => simp [hreg, EFAULT] at h
      | some r =>
        simp only [hreg] at h
        by_cases hw : faulttype = VM_FAULT_WRITE ∧ r.writeable = 0
        · simp [if_pos hw, EFAULT] at h
        · rw [if_neg hw] at h
          by_cases hr : faulttype = VM_FAULT_READ ∧ r.readable = 0
          · simp [if_pos hr, EFAULT] at h
          · rw [if_neg hr] at h
            by_cases hf : (alloc_kpages s).1 = 0
            · simp [if_pos hf, ENOMEM] at h
            · rw [if_neg hf] at h
              cases hpt : as.as_pt with
              | none => simp [hpt] at h
              | some pt =>
                simp only [hpt] at h
                generalize hal : alloc_kpages s = al at h hf
                have hpv := or_valid_and_valid (if r.writeable ≠ 0 then
                  KVADDR_TO_PADDR al.1 &&& PAGE_FRAME ||| TLBLO_DIRTY
                  else KVADDR_TO_PADDR al.1 &&& PAGE_FRAME)
                have hpd : r.writeable ≠ 0 → ((if r.writeable ≠ 0 then
                    KVADDR_TO_PADDR al.1 &&& PAGE_FRAME ||| TLBLO_DIRTY
                    else KVADDR_TO_PADDR al.1 &&& PAGE_FRAME) ||| TLBLO_VALID) &&&
                    TLBLO_DIRTY ≠ 0 := by
                  intro hwr
                  rw [if_pos hwr]
                  exact or_dirty_valid_and_dirty _
                generalize (if r.writeable ≠ 0 then
                  KVADDR_TO_PADDR al.1 &&& PAGE_FRAME ||| TLBLO_DIRTY
                  else KVADDR_TO_PADDR al.1 &&& PAGE_FRAME) ||| TLBLO_VALID = pte at h hpv hpd
                split at h
                · rename_i hret
                  simp only [Option.some.injEq, Prod.mk.injEq] at h
                  exact absurd h.1 hret
                · rename_i hret
                  rw [insert_into_tlb_eq] at h
                  simp only [Option.some.injEq, Prod.mk.injEq, true_and] at h
                  subst h
                  have hret0 := not_not.mp hret
                  have hleaf := insert_leaf_ok _ _ _ _ hret0
                  refine ⟨_, rfl, ?_, ?_⟩
                  · simp only [hleaf]
                    exact hpv
                  · intro ht
                    have hwr : r.writeable ≠ 0 := fun h0 => hw ⟨ht, h0⟩
                    simp only [hleaf]
                    exact hpd hwr

/-- C4. The warm path of `vm_fault`, for a READ or WRITE fault at the 32-bit
address `a`. First part: when the leaf `p` of the page of `a` has the valid
bit, a WRITE fault with the dirty bit of `p` clear returns `EFAULT` and
changes nothing, and every other fault returns 0 and changes nothing but the
TLB, which receives the pair `(a & PAGE_FRAME, p)`: no frame is taken and the
page table is unchanged. Second part: when the state is the one that a
successful fault of the same type on the same page has left, the fault at `a`
is such a fault: it returns 0, takes no frame and changes nothing but the
TLB. -/
theorem vm_fault_warm (s : Kernel) (faulttype : Int) (a : Nat) (ha : a < WORD)
    (htype : faulttype = VM_FAULT_READ ∨ faulttype = VM_FAULT_WRITE) :
    (∀ (as : addrspace) (p : Nat), proc_getas s = some as → page_leaf as.as_pt a = p →
      p &&& TLBLO_VALID ≠ 0 →
      (faulttype = VM_FAULT_WRITE ∧ p &&& TLBLO_DIRTY = 0 →
        vm_fault s faulttype a = some (EFAULT, s)) ∧
      (¬ (faulttype = VM_FAULT_WRITE ∧ p &&& TLBLO_DIRTY = 0) →
        vm_fault s faulttype a =
          some (0, { s with tlb := s.tlb ++ [tlb_call.random (a &&& PAGE_FRAME) p] }))) ∧
    (∀ (s0 : Kernel) (a0 : Nat), a0 >>> 12 = a >>> 12 →
      vm_fault s0 faulttype a0 = some (0, s) →
      ∃ as p, proc_getas s = some as ∧ page_leaf as.as_pt a = p ∧
        vm_fault s faulttype a =
          some (0, { s with tlb := s.tlb ++ [tlb_call.random (a &&& PAGE_FRAME) p] })) := by
  have hro : faulttype ≠ VM_FAULT_READONLY := by
    rcases htype with h | h <;> rw [h] <;> decide
  constructor
  · intro as p has hp hv
    subst hp
    have h := fault_on_valid_leaf s as faulttype a has ha hro hv
    constructor
    · intro hw
      rw [h, if_pos hw]
    · intro hw
      rw [h, if_neg hw]
  · intro s0 a0 hpage h0
    have ha0 : a0 < WORD := same_page_word a a0 hpage ha
    obtain ⟨as, has, hv, hd⟩ := leaf_after_fault s0 s faulttype a0 ha0 hro h0
    rw [same_page_leaf as.as_pt a a0 hpage] at hv hd
    refine ⟨as, _, has, rfl, ?_⟩
    rw [fault_on_valid_leaf s as faulttype a has ha hro hv]
    exact if_neg (fun hw => hd hw.1 hw.2)

/-- Witness of C4, on the fault scenario: after the READ fault at `0x1500`
has populated the page, a second READ fault at `0x1500` and a WRITE fault at
`0x1fff` (same page, writeable region) return 0 and only feed the TLB; after a
READ fault has populated a page of the read-only region, a WRITE fault on it
returns `EFAULT`. -/
theorem vm_fault_warm_witness :
    (vm_fault (kernel_with [region_rw]) VM_FAULT_READ 0x1500 =
        some (0, kernel_after_fault (kernel_with [region_rw]) VM_FAULT_READ 0x1500) ∧
      ∃ as p, proc_getas (kernel_after_fault (kernel_with [region_rw]) VM_FAULT_READ 0x1500)
          = some as ∧ page_leaf as.as_pt 0x1500 = p ∧
        vm_fault (kernel_after_fault (kernel_with [region_rw]) VM_FAULT_READ 0x1500)
            VM_FAULT_READ 0x1500 =
          some (0, { kernel_after_fault (kernel_with [region_rw]) VM_FAULT_READ 0x1500 with
            tlb := (kernel_after_fault (kernel_with [region_rw]) VM_FAULT_READ 0x1500).tlb ++
              [tlb_call.random (0x1500 &&& PAGE_FRAME) p] })) ∧
    vm_fault (kernel_after_fault (kernel_with [region_rw]) VM_FAULT_READ 0x1500)
        VM_FAULT_WRITE 0x1fff =
      some (0, { kernel_after_fault (kernel_with [region_rw]) VM_FAULT_READ 0x1500 with
        tlb := (kernel_after_fault (kernel_with [region_rw]) VM_FAULT_READ 0x1500).tlb ++
          [tlb_call.random (0x1fff &&& PAGE_FRAME) 0x5600] }) ∧
    vm_fault (kernel_after_fault (kernel_with [region_ro]) VM_FAULT_READ 0x1500)
        VM_FAULT_WRITE 0x1500 =
      some (EFAULT, kernel_after_fault (kernel_with [region_ro]) VM_FAULT_READ 0x1500) :=
  ⟨⟨rfl, (vm_fault_warm (kernel_after_fault (kernel_with [region_rw]) VM_FAULT_READ 0x1500)
      VM_FAULT_READ 0x1500 (by decide) (Or.inl rfl)).2 (kernel_with [region_rw]) 0x1500 rfl rfl⟩,
    ((vm_fault_warm (kernel_after_fault (kernel_with [region_rw]) VM_FAULT_READ 0x1500)
      VM_FAULT_WRITE 0x1fff (by decide) (Or.inr rfl)).1
      (current_as (kernel_after_fault (kernel_with [region_rw]) VM_FAULT_READ 0x1500)) 0x5600
      rfl (by decide) (by decide)).2 (by decide),
    ((vm_fault_warm (kernel_after_fault (kernel_with [region_ro]) VM_FAULT_READ 0x1500)
      VM_FAULT_WRITE 0x1500 (by decide) (Or.inr rfl)).1
      (current_as (kernel_after_fault (kernel_with [region_ro]) VM_FAULT_READ 0x1500)) 0x5200
      rfl (by decide) (by decide)).1 (by decide)⟩

/-- C6. Insert/lookup round trip: for a 32-bit address `a` and a nonzero
packed value `p`, when `insertPageTableEntry` returns 0, `page_table_lookup`
at `a` on the table it leaves returns exactly `p`. -/
theorem insert_lookup_roundtrip (s : Kernel) (pt : PTTop) (p a : Nat) (ha : a < WORD)
    (hp : p ≠ 0) (h : (insertPageTableEntry s pt p a).1 = 0) :
    page_table_lookup (some (insertPageTableEntry s pt p a).2.1) a = p := by
  have hleaf := insert_leaf_ok s pt p a h
  rw [lookup_of_leaf_ne_zero _ a ha (by rw [hleaf]; exact hp), hleaf]

/-- Witness of C6: the value `0x5600` inserted at `0x1500` into the empty
table. -/
theorem insert_lookup_roundtrip_witness :
    (insertPageTableEntry (kernel_with []) empty_pt 0x5600 0x1500).1 = 0 ∧
    page_table_lookup (some (insertPageTableEntry (kernel_with []) empty_pt 0x5600 0x1500).2.1)
      0x1500 = 0x5600 :=
  ⟨by decide,
    insert_lookup_roundtrip (kernel_with []) empty_pt 0x5600 0x1500 (by decide) (by decide)
      (by decide)⟩

/-- C7. Once-only insert: after `insertPageTableEntry` has returned 0 for the
nonzero value `p` at the 32-bit address `a`, a second insert of any value `q`
at an address `b` of the same 4 KiB page returns `EFAULT`, leaves the table
and the machine state as they were, and `page_table_lookup` at `a` still
returns `p`. -/
theorem insert_once_only (s : Kernel) (pt : PTTop) (p q a b : Nat) (ha : a < WORD)
    (hp : p ≠ 0) (hb : b >>> 12 = a >>> 12)
    (h : (insertPageTableEntry s pt p a).1 = 0) :
    insertPageTableEntry (insertPageTableEntry s pt p a).2.2
        (insertPageTableEntry s pt p a).2.1 q b =
      (EFAULT, (insertPageTableEntry s pt p a).2.1, (insertPageTableEntry s pt p a).2.2) ∧
    page_table_lookup
      (some (insertPageTableEntry (insertPageTableEntry s pt p a).2.2
        (insertPageTableEntry s pt p a).2.1 q b).2.1) a = p := by
  have hleaf := insert_leaf_ok s pt p a h
  have hne : page_leaf (some (insertPageTableEntry s pt p a).2.1) b ≠ 0 := by
    rw [same_page_leaf _ a b hb, hleaf]; exact hp
  have h2 := insert_present (insertPageTableEntry s pt p a).2.2 _ q b hne
  refine ⟨h2, ?_⟩
  rw [h2, lookup_of_leaf_ne_zero _ a ha (by rw [hleaf]; exact hp), hleaf]

/-- Witness of C7: `0x5600` inserted at `0x1500` into the empty table, then
`0x7600` at `0x1ffc`, in the same page. -/
theorem insert_once_only_witness :
    (insertPageTableEntry (kernel_with []) empty_pt 0x5600 0x1500).1 = 0 ∧
    (insertPageTableEntry (insertPageTableEntry (kernel_with []) empty_pt 0x5600 0x1500).2.2
        (insertPageTableEntry (kernel_with []) empty_pt 0x5600 0x1500).2.1 0x7600 0x1ffc =
      (EFAULT, (insertPageTableEntry (kernel_with []) empty_pt 0x5600 0x1500).2.1,
        (insertPageTableEntry (kernel_with []) empty_pt 0x5600 0x1500).2.2) ∧
    page_table_lookup
      (some (insertPageTableEntry
        (insertPageTableEntry (kernel_with []) empty_pt 0x5600 0x1500).2.2
        (insertPageTableEntry (kernel_with []) empty_pt 0x5600 0x1500).2.1 0x7600 0x1ffc).2.1)
      0x1500 = 0x5600) :=
  ⟨by decide,
    insert_once_only (kernel_with []) empty_pt 0x5600 0x7600 0x1500 0x1ffc (by decide)
      (by decide) (by decide) (by decide)⟩

/-- C8 as stated fails: with the table absent, and with a table whose level-1
slot is absent, `page_table_lookup` returns 1, not 0. -/
theorem page_table_lookup_unmapped_not_zero :
    page_table_lookup none 0x1500 = 1 ∧ page_table_lookup none 0x1500 ≠ 0 ∧
    empty_pt (get_8_mostsb 0x1500) = none ∧
    page_table_lookup (some empty_pt) 0x1500 = 1 ∧
    page_table_lookup (some empty_pt) 0x1500 ≠ 0 :=
  ⟨by decide, by decide, rfl, by decide, by decide⟩

/-- C8, amended. Where no mapping exists for the page of `a` (the table is
absent, the level-1 slot is absent, the level-2 slot is absent, or the leaf
is zero), `page_table_lookup` returns 1, a value whose valid bit is clear. -/
theorem page_table_lookup_unmapped (pt : Option PTTop) (a : Nat)
    (h : pt = none ∨
      (∃ t, pt = some t ∧ t (get_8_mostsb a) = none) ∨
      (∃ t l2, pt = some t ∧ t (get_8_mostsb a) = some l2 ∧ l2 (get_6_middlesb a) = none) ∨
      (∃ t l2 l3, pt = some t ∧ t (get_8_mostsb a) = some l2 ∧
        l2 (get_6_middlesb a) = some l3 ∧ l3 (get_6_leastsb a) = 0)) :
    page_table_lookup pt a = 1 ∧ 1 &&& TLBLO_VALID = 0 := by
  refine ⟨lookup_of_leaf_zero pt a ?_, one_and_valid⟩
  unfold page_leaf leaf_at
  rcases h with h | ⟨t, h, h1⟩ | ⟨t, l2, h, h1, h2⟩ | ⟨t, l2, l3, h, h1, h2, h3⟩
  · simp [h]
  · simp [h, h1]
  · simp [h, h1, h2]
  · simp [h, h1, h2, h3]

/-- Witness of C8, amended: the empty table at `0x1500`. -/
theorem page_table_lookup_unmapped_witness :
    page_table_lookup (some empty_pt) 0x1500 = 1 ∧ 1 &&& TLBLO_VALID = 0 :=
  page_table_lookup_unmapped (some empty_pt) 0x1500 (Or.inr (Or.inl ⟨empty_pt, rfl, rfl⟩))

/-- C9, the code at two failing inputs. On the empty address space,
defining `[0x1000, 0x3000)` returns 0 and gives the single region
`[0x1000, 0x3000)`; then defining `[0x2000, 0x3000)` (nested in it, `0x2000`
lies in both) returns 0 and appends the region: the walk stops before the
last node and never tests it. With the regions `[0x1000, 0x3000)` and
`[0x8000, 0x9000)`, defining `[0x1000, 0x3000)` again returns 0 and appends
it: none of the three tests holds for an identical interval. -/
theorem as_define_region_accepts_overlap :
    (as_define_region (kernel_with []) (some (as_with [])) 0x1000 0x2000 4 2 0).1 = 0 ∧
    regions_of (as_define_region (kernel_with []) (some (as_with [])) 0x1000 0x2000 4 2 0).2.1 =
      [region_rw] ∧
    (region_rw.base ≤ 0x2000 ∧ 0x2000 < region_rw.base + region_rw.size) ∧
    (as_define_region
      (as_define_region (kernel_with []) (some (as_with [])) 0x1000 0x2000 4 2 0).2.2
      (as_define_region (kernel_with []) (some (as_with [])) 0x1000 0x2000 4 2 0).2.1
      0x2000 0x1000 4 0 1).1 = 0 ∧
    regions_of
        (as_define_region
          (as_define_region (kernel_with []) (some (as_with [])) 0x1000 0x2000 4 2 0).2.2
          (as_define_region (kernel_with []) (some (as_with [])) 0x1000 0x2000 4 2 0).2.1
          0x2000 0x1000 4 0 1).2.1 =
      [region_rw,
        { base := 0x2000, size := 0x1000, readable := 4, writeable := 0, executable := 1,
          old_writeable := 0 }] ∧
    (as_define_region (kernel_with []) (some (as_with [region_rw, region_high]))
      0x1000 0x2000 4 0 1).1 = 0 ∧
    regions_of
        (as_define_region (kernel_with []) (some (as_with [region_rw, region_high]))
          0x1000 0x2000 4 0 1).2.1 =
      [region_rw, region_high,
        { base := 0x1000, size := 0x2000, readable := 4, writeable := 0, executable := 1,
          old_writeable := 0 }] := by
  decide

/-- C10, the code at a failing input. With the regions `[0x5000, 0x6000)` and
`[0x8000, 0x9000)` and blocks left on the heap, defining `[0x1000, 0x2000)`,
which lies below both and meets neither, returns `EBADF` and adds nothing:
the first test of the walk holds for every interval that starts and ends
below the top of a region that is not the last. -/
theorem as_define_region_rejects_disjoint :
    (∀ r ∈ [region_mid, region_high],
      0x1000 + 0x1000 ≤ r.base ∨ r.base + r.size ≤ 0x1000) ∧
    kmalloc_succeeds (kernel_with []) 1 ∧
    (as_define_region (kernel_with []) (some (as_with [region_mid, region_high]))
      0x1000 0x1000 4 2 0).1 = EBADF ∧
    regions_of
        (as_define_region (kernel_with []) (some (as_with [region_mid, region_high]))
          0x1000 0x1000 4 2 0).2.1 =
      [region_mid, region_high] := by
  decide

/-! ## Address decomposition -/

theorem and_page_frame_mod (x : Nat) : (x &&& PAGE_FRAME) % PAGE_SIZE = 0 := by
  have h1 : PAGE_SIZE = 2 ^ 12 := by decide
  have h2 : PAGE_FRAME &&& (2 ^ 12 - 1) = 0 := by decide
  rw [h1, ← Nat.and_pow_two_sub_one_eq_mod, Nat.and_assoc, h2, Nat.and_zero]

theorem and_page_frame (v : Nat) (h : v < WORD) : v &&& PAGE_FRAME = v - v % PAGE_SIZE := by
  have hm := and_page_frame_mod v
  have h1 : v &&& (2 ^ 32 - 1) = v := by
    rw [Nat.and_pow_two_sub_one_eq_mod]
    exact Nat.mod_eq_of_lt h
  have h2 : (2 ^ 32 - 1 : Nat) = PAGE_FRAME ||| (2 ^ 12 - 1) := by decide
  have h3 : v &&& (2 ^ 12 - 1) = v % PAGE_SIZE := by
    rw [Nat.and_pow_two_sub_one_eq_mod]; rfl
  rw [h2, Nat.and_or_distrib_left, h3] at h1
  have h4 : v &&& PAGE_FRAME = 2 ^ 12 * ((v &&& PAGE_FRAME) / 2 ^ 12) := by
    have : PAGE_SIZE = 2 ^ 12 := by decide
    rw [this] at hm
    omega
  have h5 : v % PAGE_SIZE < 2 ^ 12 := Nat.mod_lt _ (by decide)
  rw [h4, ← Nat.mul_add_lt_is_or h5, ← h4] at h1
  omega

theorem get_address_eq (i j k : Nat) (hi : i < PTLEVEL1) (hj : j < PTLEVEL2)
    (hk : k < PTLEVEL3) : get_address i j k = i * 2 ^ 24 + j * 2 ^ 18 + k * 2 ^ 12 := by
  unfold PTLEVEL1 at hi
  unfold PTLEVEL2 at hj
  unfold PTLEVEL3 at hk
  unfold get_address WORD
  simp only [Nat.shiftLeft_eq]
  have e1 : i * 2 ^ 24 % 2 ^ 32 = 2 ^ 24 * i := by omega
  have e2 : j * 2 ^ 18 % 2 ^ 32 = 2 ^ 18 * j := by omega
  have e3 : k * 2 ^ 12 % 2 ^ 32 = 2 ^ 12 * k := by omega
  rw [e1, e2, e3]
  have b2 : 2 ^ 18 * j < 2 ^ 24 := by omega
  have b3 : 2 ^ 12 * k < 2 ^ 18 := by omega
  rw [← Nat.mul_add_lt_is_or b2]
  have e4 : 2 ^ 24 * i + 2 ^ 18 * j = 2 ^ 18 * (64 * i + j) := by omega
  rw [e4, ← Nat.mul_add_lt_is_or b3]
  omega

theorem indices_arith (v : Nat) :
    get_8_mostsb v = v / 2 ^ 24 ∧ get_6_middlesb v = v / 2 ^ 18 % 2 ^ 6 ∧
      get_6_leastsb v = v / 2 ^ 12 % 2 ^ 6 := by
  unfold get_8_mostsb get_6_middlesb get_6_leastsb WORD
  simp only [Nat.shiftRight_eq_div_pow, Nat.shiftLeft_eq]
  have h1 : v * 2 ^ 8 % 2 ^ 32 = (v % 2 ^ 24) * 2 ^ 8 := by omega
  have h2 : v * 2 ^ 14 % 2 ^ 32 = (v % 2 ^ 18) * 2 ^ 14 := by omega
  rw [h1, h2]
  refine ⟨trivial, ?_, ?_⟩ <;> omega

theorem get_address_indices (v : Nat) (hv : v < WORD) :
    get_address (get_8_mostsb v) (get_6_middlesb v) (get_6_leastsb v) = v &&& PAGE_FRAME := by
  have hr := index_in_range v hv
  rw [get_address_eq _ _ _ (by omega) (by omega) (by omega), and_page_frame v hv]
  obtain ⟨h1, h2, h3⟩ := indices_arith v
  rw [h1, h2, h3]
  unfold WORD at hv
  unfold PAGE_SIZE
  omega

theorem indices_get_address (i j k : Nat) (hi : i < PTLEVEL1) (hj : j < PTLEVEL2)
    (hk : k < PTLEVEL3) :
    get_8_mostsb (get_address i j k) = i ∧ get_6_middlesb (get_address i j k) = j ∧
      get_6_leastsb (get_address i j k) = k := by
  obtain ⟨h1, h2, h3⟩ := indices_arith (get_address i j k)
  rw [h1, h2, h3, get_address_eq i j k hi hj hk]
  unfold PTLEVEL1 at hi
  unfold PTLEVEL2 at hj
  unfold PTLEVEL3 at hk
  omega

theorem same_indices_same_page (v w : Nat)
    (h1 : get_8_mostsb w = get_8_mostsb v) (h2 : get_6_middlesb w = get_6_middlesb v)
    (h3 : get_6_leastsb w = get_6_leastsb v) : w >>> 12 = v >>> 12 := by
  obtain ⟨a1, a2, a3⟩ := indices_arith v
  obtain ⟨b1, b2, b3⟩ := indices_arith w
  rw [a1, b1] at h1
  rw [a2, b2] at h2
  rw [a3, b3] at h3
  simp only [Nat.shiftRight_eq_div_pow]
  omega

/-- C17. Address decomposition, for a 32-bit address `v`: `get_8_mostsb v` is
bits 31..24 of `v` and is below 256, `get_6_middlesb v` is bits 23..18 and
`get_6_leastsb v` is bits 17..12, both below 64; an address with the same
bits above bit 11 has the same three indices; `get_address` of the three
indices of `v` is `v & 0xFFFFF000`; for `i < 256`, `j < 64`, `k < 64` the
three indices of `get_address i j k` are `i`, `j`, `k`; an address `w` has
the same three indices as `v` exactly when it lies in the same 4 KiB page; and the range check of `insertPageTableEntry` and `checkPT` does not
fire at `v`. -/
theorem address_decomposition (v : Nat) (hv : v < WORD) :
    (get_8_mostsb v = v / 2 ^ 24 ∧ get_8_mostsb v < 256) ∧
    (get_6_middlesb v = v / 2 ^ 18 % 2 ^ 6 ∧ get_6_middlesb v < 64) ∧
    (get_6_leastsb v = v / 2 ^ 12 % 2 ^ 6 ∧ get_6_leastsb v < 64) ∧
    (∀ w, w / 2 ^ 12 = v / 2 ^ 12 →
      get_8_mostsb w = get_8_mostsb v ∧ get_6_middlesb w = get_6_middlesb v ∧
        get_6_leastsb w = get_6_leastsb v) ∧
    get_address (get_8_mostsb v) (get_6_middlesb v) (get_6_leastsb v) = v &&& 0xFFFFF000 ∧
    (∀ i j k, i < 256 → j < 64 → k < 64 →
      get_8_mostsb (get_address i j k) = i ∧ get_6_middlesb (get_address i j k) = j ∧
        get_6_leastsb (get_address i j k) = k) ∧
    (∀ w,
      ((get_8_mostsb w = get_8_mostsb v ∧ get_6_middlesb w = get_6_middlesb v ∧
          get_6_leastsb w = get_6_leastsb v) ↔ w >>> 12 = v >>> 12)) ∧
    ¬ (get_8_mostsb v ≥ PTLEVEL1 ∨ get_6_middlesb v ≥ PTLEVEL2 ∨
        get_6_leastsb v ≥ PTLEVEL3) := by
  have hr := index_in_range v hv
  obtain ⟨h1, h2, h3⟩ := indices_arith v
  have hpage : ∀ w, w / 2 ^ 12 = v / 2 ^ 12 → w >>> 12 = v >>> 12 := by
    intro w h
    simpa only [Nat.shiftRight_eq_div_pow] using h
  refine ⟨⟨h1, ?_⟩, ⟨h2, ?_⟩, ⟨h3, ?_⟩, ?_, get_address_indices v hv, ?_, ?_, hr⟩
  · unfold PTLEVEL1 at hr; omega
  · unfold PTLEVEL2 at hr; omega
  · unfold PTLEVEL3 at hr; omega
  · intro w h
    exact ⟨same_page_mostsb v w (hpage w h), same_page_middlesb v w (hpage w h),
      same_page_leastsb v w (hpage w h)⟩
  · intro i j k hi hj hk
    exact indices_get_address i j k hi hj hk
  · intro w
    constructor
    · rintro ⟨e1, e2, e3⟩
      exact same_indices_same_page v w e1 e2 e3
    · intro h
      exact ⟨same_page_mostsb v w h, same_page_middlesb v w h, same_page_leastsb v w h⟩

/-- Witness of C17: the address `0x12345678`. -/
theorem address_decomposition_witness :
    get_8_mostsb 0x12345678 = 0x12 ∧ get_6_middlesb 0x12345678 = 0x0d ∧
    get_6_leastsb 0x12345678 = 0x05 ∧
    get_address 0x12 0x0d 0x05 = 0x12345000 ∧
    get_address (get_8_mostsb 0x12345678) (get_6_middlesb 0x12345678)
      (get_6_leastsb 0x12345678) = 0x12345678 &&& 0xFFFFF000 :=
  ⟨by decide, by decide, by decide, by decide,
    (address_decomposition 0x12345678 (by decide)).2.2.2.2.1⟩

/-! ## The frame of an insert -/

theorem lookup_by_leaf (pt : Option PTTop) (b : Nat) :
    page_table_lookup pt b =
      if (get_8_mostsb b ≥ PTLEVEL1 ∨ get_6_middlesb b ≥ PTLEVEL2 ∨ get_6_leastsb b ≥ PTLEVEL3) ∨
          page_leaf pt b = 0 then 1
      else page_leaf pt b := by
  by_cases h0 : page_leaf pt b = 0
  · rw [lookup_of_leaf_zero pt b h0, if_pos (Or.inr h0)]
  · by_cases hr : get_8_mostsb b ≥ PTLEVEL1 ∨ get_6_middlesb b ≥ PTLEVEL2 ∨
        get_6_leastsb b ≥ PTLEVEL3
    · rw [if_pos (Or.inl hr)]
      unfold page_table_lookup checkPT
      simp [hr]
    · have hb : b < WORD := by
        unfold get_8_mostsb PTLEVEL1 at hr
        unfold WORD
        simp only [Nat.shiftRight_eq_div_pow] at hr
        omega
      rw [lookup_of_leaf_ne_zero pt b hb h0, if_neg (by tauto)]

theorem leaf_at_some (pt : PTTop) (i j k : Nat) :
    leaf_at (some pt) i j k = leaf_mid (pt i) j k := by
  unfold leaf_at leaf_mid leaf_low
  cases h1 : pt i with
  | none => simp [h1]
  | some l2 => cases h2 : l2 j <;> simp [h1, h2]

theorem leaf_mid_some (l2 : PTMid) (j k : Nat) :
    leaf_mid (some l2) j k = leaf_low (l2 j) k := rfl

theorem leaf_low_some (l3 : PTLeaf) (k : Nat) : leaf_low (some l3) k = l3 k := rfl

theorem insert_leaf_other (l3 : PTLeaf) (p k0 k : Nat) (h : k ≠ k0) :
    (insertPageTableEntry_leaf l3 p k0).2 k = l3 k := by
  unfold insertPageTableEntry_leaf
  split
  · rfl
  · simp [Function.update_apply, h]

theorem insert_leaf_fail (l3 : PTLeaf) (p k0 : Nat)
    (h : (insertPageTableEntry_leaf l3 p k0).1 ≠ 0) :
    (insertPageTableEntry_leaf l3 p k0).2 = l3 := by
  unfold insertPageTableEntry_leaf at h ⊢
  split
  · rfl
  · rename_i h0
    simp [h0] at h

theorem insert_mid_other (s : Kernel) (l2 : PTMid) (p j0 k0 j k : Nat)
    (h : ¬ (j = j0 ∧ k = k0)) :
    leaf_mid (some (insertPageTableEntry_mid s l2 p j0 k0).2.1) j k = leaf_mid (some l2) j k := by
  unfold insertPageTableEntry_mid
  simp only [leaf_mid_some]
  cases h2 : l2 j0 with
  | some l3 =>
    simp only [Function.update_apply]
    by_cases hj : j = j0
    · subst hj
      have hk : k ≠ k0 := fun hk => h ⟨rfl, hk⟩
      simp [h2, leaf_low_some, insert_leaf_other l3 p k0 k hk]
    · simp [hj]
  | none =>
    cases hm : kmalloc s with
    | mk r s1 =>
      cases r with
      | none => rfl
      | some g =>
        simp only [Function.update_apply]
        by_cases hj : j = j0
        · subst hj
          have hk : k ≠ k0 := fun hk => h ⟨rfl, hk⟩
          simp [h2, leaf_low, insert_leaf_other (fun _ => 0) p k0 k hk]
        · simp [hj]

theorem insert_mid_fail (s : Kernel) (l2 : PTMid) (p j0 k0 j k : Nat)
    (h : (insertPageTableEntry_mid s l2 p j0 k0).1 ≠ 0) :
    leaf_mid (some (insertPageTableEntry_mid s l2 p j0 k0).2.1) j k = leaf_mid (some l2) j k := by
  unfold insertPageTableEntry_mid at h ⊢
  simp only [leaf_mid_some]
  cases h2 : l2 j0 with
  | some l3 =>
    simp only [h2] at h
    simp only [Function.update_apply, insert_leaf_fail l3 p k0 h]
    by_cases hj : j = j0
    · subst hj; simp [h2]
    · simp [hj]
  | none =>
    simp only [h2] at h
    cases hm : kmalloc s with
    | mk r s1 =>
      cases r with
      | none => rfl
      | some g =>
        simp only [hm] at h
        simp only [Function.update_apply, insert_leaf_fail (fun _ => 0) p k0 h]
        by_cases hj : j = j0
        · subst hj; simp [h2, leaf_low]
        · simp [hj]

theorem insert_leaf_at_other (s : Kernel) (pt : PTTop) (p a i j k : Nat)
    (h : ¬ (i = get_8_mostsb a ∧ j = get_6_middlesb a ∧ k = get_6_leastsb a)) :
    leaf_at (some (insertPageTableEntry s pt p a).2.1) i j k = leaf_at (some pt) i j k := by
  unfold insertPageTableEntry
  simp only [leaf_at_some]
  by_cases hr : get_8_mostsb a ≥ PTLEVEL1 ∨ get_6_middlesb a ≥ PTLEVEL2 ∨
      get_6_leastsb a ≥ PTLEVEL3
  · rw [if_pos hr]
  · rw [if_neg hr]
    cases h1 : pt (get_8_mostsb a) with
    | some l2 =>
      simp only [Function.update_apply]
      by_cases hi : i = get_8_mostsb a
      · subst hi
        simp only [if_true, h1]
        exact insert_mid_other s l2 p _ _ j k (fun hjk => h ⟨rfl, hjk.1, hjk.2⟩)
      · simp [hi]
    | none =>
      cases hm : kmalloc s with
      | mk r s1 =>
        cases r with
        | none => rfl
        | some g =>
          simp only [Function.update_apply]
          by_cases hi : i = get_8_mostsb a
          · subst hi
            simp only [if_true, h1]
            rw [insert_mid_other s1 (fun _ => none) p _ _ j k
              (fun hjk => h ⟨rfl, hjk.1, hjk.2⟩)]
            rfl
          · simp [hi]

theorem insert_fail_leaf_at (s : Kernel) (pt : PTTop) (p a i j k : Nat)
    (h : (insertPageTableEntry s pt p a).1 ≠ 0) :
    leaf_at (some (insertPageTableEntry s pt p a).2.1) i j k = leaf_at (some pt) i j k := by
  unfold insertPageTableEntry at h ⊢
  simp only [leaf_at_some] at h ⊢
  by_cases hr : get_8_mostsb a ≥ PTLEVEL1 ∨ get_6_middlesb a ≥ PTLEVEL2 ∨
      get_6_leastsb a ≥ PTLEVEL3
  · rw [if_pos hr]
  · rw [if_neg hr] at h ⊢
    cases h1 : pt (get_8_mostsb a) with
    | some l2 =>
      simp only [h1] at h
      simp only [Function.update_apply]
      by_cases hi : i = get_8_mostsb a
      · subst hi
        simp only [if_true, h1]
        exact insert_mid_fail s l2 p _ _ j k h
      · simp [hi]
    | none =>
      simp only [h1] at h
      cases hm : kmalloc s with
      | mk r s1 =>
        cases r with
        | none => rfl
        | some g =>
          simp only [hm] at h
          simp only [Function.update_apply]
          by_cases hi : i = get_8_mostsb a
          · subst hi
            simp only [if_true, h1]
            rw [insert_mid_fail s1 (fun _ => none) p _ _ j k h]
            rfl
          · simp [hi]

theorem kmalloc_kernel (s : Kernel) :
    (kmalloc s).2.curproc_as = s.curproc_as ∧ (kmalloc s).2.free_frames = s.free_frames ∧
      (kmalloc s).2.mem = s.mem ∧ (kmalloc s).2.tlb = s.tlb ∧ (kmalloc s).2.spl = s.spl := by
  unfold kmalloc
  cases s.kheap with
  | nil => exact ⟨rfl, rfl, rfl, rfl, rfl⟩
  | cons x rest => exact ⟨rfl, rfl, rfl, rfl, rfl⟩

theorem insert_mid_kernel (s : Kernel) (l2 : PTMid) (p j0 k0 : Nat) :
    (insertPageTableEntry_mid s l2 p j0 k0).2.2.curproc_as = s.curproc_as ∧
      (insertPageTableEntry_mid s l2 p j0 k0).2.2.free_frames = s.free_frames ∧
      (insertPageTableEntry_mid s l2 p j0 k0).2.2.mem = s.mem ∧
      (insertPageTableEntry_mid s l2 p j0 k0).2.2.tlb = s.tlb ∧
      (insertPageTableEntry_mid s l2 p j0 k0).2.2.spl = s.spl := by
  unfold insertPageTableEntry_mid
  cases l2 j0 with
  | some l3 => exact ⟨rfl, rfl, rfl, rfl, rfl⟩
  | none =>
    have hk := kmalloc_kernel s
    cases hm : kmalloc s with
    | mk r s1 =>
      rw [hm] at hk
      cases r with
      | none => exact hk
      | some g => exact hk

/-- An insert changes nothing in the machine state but the heap. -/
theorem insert_kernel (s : Kernel) (pt : PTTop) (p a : Nat) :
    (insertPageTableEntry s pt p a).2.2.curproc_as = s.curproc_as ∧
      (insertPageTableEntry s pt p a).2.2.free_frames = s.free_frames ∧
      (insertPageTableEntry s pt p a).2.2.mem = s.mem ∧
      (insertPageTableEntry s pt p a).2.2.tlb = s.tlb ∧
      (insertPageTableEntry s pt p a).2.2.spl = s.spl := by
  unfold insertPageTableEntry
  simp only
  split
  · exact ⟨rfl, rfl, rfl, rfl, rfl⟩
  · cases pt (get_8_mostsb a) with
    | some l2 =>
      simp only
      exact insert_mid_kernel s l2 p _ _
    | none =>
      simp only
      have hk := kmalloc_kernel s
      cases hm : kmalloc s with
      | mk r s1 =>
        rw [hm] at hk
        cases r with
        | none => exact hk
        | some g =>
          simp only
          have h2 := insert_mid_kernel s1 (fun _ => none) p (get_6_middlesb a) (get_6_leastsb a)
          simp only at hk
          rw [hk.1, hk.2.1, hk.2.2.1, hk.2.2.2.1, hk.2.2.2.2] at h2
          exact h2

/-- C20. An insert touches only its own page: for every table, address `a`,
value `p` and every address `b` of another 4 KiB page, `page_table_lookup`
at `b` returns the same value on the table that `insertPageTableEntry`
leaves as on the table before, whether the insert succeeds or fails and
whether or not it allocates a level-2 or level-3 array on the way of `b`. -/
theorem insert_other_page (s : Kernel) (pt : PTTop) (p a b : Nat)
    (h : b >>> 12 ≠ a >>> 12) :
    page_table_lookup (some (insertPageTableEntry s pt p a).2.1) b =
      page_table_lookup (some pt) b := by
  have hleaf : page_leaf (some (insertPageTableEntry s pt p a).2.1) b = page_leaf (some pt) b := by
    unfold page_leaf
    apply insert_leaf_at_other
    rintro ⟨e1, e2, e3⟩
    exact h (same_indices_same_page a b e1 e2 e3)
  rw [lookup_by_leaf, lookup_by_leaf, hleaf]

/-- Witness of C20: `0x5600` inserted at `0x1500` into the empty table, which
allocates the two arrays that the page of `0x2500` shares; the lookup at
`0x2500` is 1 before and after. -/
theorem insert_other_page_witness :
    (insertPageTableEntry (kernel_with []) empty_pt 0x5600 0x1500).1 = 0 ∧
    page_table_lookup (some empty_pt) 0x2500 = 1 ∧
    page_table_lookup (some (insertPageTableEntry (kernel_with []) empty_pt 0x5600 0x1500).2.1)
      0x2500 = page_table_lookup (some empty_pt) 0x2500 :=
  ⟨by decide, by decide,
    insert_other_page (kernel_with []) empty_pt 0x5600 0x1500 0x2500 (by decide)⟩

/-! ## Failed faults -/

theorem insert_mid_code (s : Kernel) (l2 : PTMid) (p j0 k0 : Nat) :
    (insertPageTableEntry_mid s l2 p j0 k0).1 = 0 ∨
      (insertPageTableEntry_mid s l2 p j0 k0).1 = EFAULT ∨
      (insertPageTableEntry_mid s l2 p j0 k0).1 = ENOMEM := by
  unfold insertPageTableEntry_mid insertPageTableEntry_leaf
  cases l2 j0 with
  | some l3 =>
    simp only
    split <;> simp
  | none =>
    simp only
    cases hm : kmalloc s with
    | mk r s1 =>
      cases r with
      | none => simp
      | some g => simp

theorem insert_code (s : Kernel) (pt : PTTop) (p a : Nat) :
    (insertPageTableEntry s pt p a).1 = 0 ∨ (insertPageTableEntry s pt p a).1 = EFAULT ∨
      (insertPageTableEntry s pt p a).1 = ENOMEM := by
  unfold insertPageTableEntry
  simp only
  split
  · simp
  · cases pt (get_8_mostsb a) with
    | some l2 => exact insert_mid_code s l2 p _ _
    | none =>
      simp only
      cases hm : kmalloc s with
      | mk r s1 =>
        cases r with
        | none => simp
        | some g => exact insert_mid_code s1 _ p _ _

theorem alloc_kpages_cases (s : Kernel) (h0 : 0 ∉ s.free_frames) :
    ((alloc_kpages s).1 = 0 ∧ (alloc_kpages s).2 = s) ∨
      ((alloc_kpages s).1 ≠ 0 ∧ s.free_frames = (alloc_kpages s).1 :: (alloc_kpages s).2.free_frames ∧
        (alloc_kpages s).2.curproc_as = s.curproc_as ∧ (alloc_kpages s).2.tlb = s.tlb) := by
  unfold alloc_kpages
  cases hf : s.free_frames with
  | nil => exact Or.inl ⟨rfl, rfl⟩
  | cons v rest =>
    right
    refine ⟨?_, rfl, rfl, rfl⟩
    intro hv
    apply h0
    rw [hf]
    simp only at hv
    simp [hv]

/-- C19. Failed faults are atomic: whenever `vm_fault` returns a code that is
not 0, in a machine whose free frames do not include the failure value 0, the
code is `EFAULT` or `ENOMEM`, `page_table_lookup` returns at every address
what it returned before the call, the regions are those before the call, the
free frames are those before the call (a frame taken during the call has
been given back) and no call was made to the TLB. -/
theorem vm_fault_failure_atomic (s s1 : Kernel) (faulttype ret : Int) (a : Nat)
    (h : vm_fault s faulttype a = some (ret, s1)) (hret : ret ≠ 0)
    (h0 : 0 ∉ s.free_frames) :
    (ret = EFAULT ∨ ret = ENOMEM) ∧
    (∀ b, page_table_lookup (current_as s1).as_pt b =
      page_table_lookup (current_as s).as_pt b) ∧
    (current_as s1).as_regions = (current_as s).as_regions ∧
    s1.free_frames = s.free_frames ∧
    s1.tlb = s.tlb := by
  unfold vm_fault at h
  have same : ∀ {r : Int}, some (r, s) = some (ret, s1) →
      (∀ b, page_table_lookup (current_as s1).as_pt b =
        page_table_lookup (current_as s).as_pt b) ∧
      (current_as s1).as_regions = (current_as s).as_regions ∧
      s1.free_frames = s.free_frames ∧ s1.tlb = s.tlb := by
    intro r hh
    simp only [Option.some.injEq, Prod.mk.injEq] at hh
    rw [← hh.2]
    exact ⟨fun _ => rfl, rfl, rfl, rfl⟩
  have code : ∀ {r : Int} {t : Kernel}, some (r, t) = some (ret, s1) → r = ret := by
    intro r t hh
    simp only [Option.some.injEq, Prod.mk.injEq] at hh
    exact hh.1
  split at h
  · exact ⟨Or.inl (code h).symm, same h⟩
  · cases has : proc_getas s with
    | none =>
      simp only [has] at h
      exact ⟨Or.inl (code h).symm, same h⟩
    | some as =>
      simp only [has] at h
      split at h
      · split at h
        · exact ⟨Or.inl (code h).symm, same h⟩
        · exact absurd (code h).symm hret
      · cases hreg : addr_to_region as.as_regions a with
        | none =>
          simp only [hreg] at h
          exact ⟨Or.inl (code h).symm, same h⟩
        | some r =>
          simp only [hreg] at h
          split at h
          · exact ⟨Or.inl (code h).symm, same h⟩
          · split at h
            · exact ⟨Or.inl (code h).symm, same h⟩
            · rcases alloc_kpages_cases s h0 with ⟨hz, hs⟩ | ⟨hnz, hfr, hcur, htlb⟩
              · rw [if_pos hz, hs] at h
                exact ⟨Or.inr (code h).symm, same h⟩
              · rw [if_neg hnz] at h
                cases hpt : as.as_pt with
                | none => simp [hpt] at h
                | some pt =>
                  simp only [hpt] at h
                  generalize hal : alloc_kpages s = al at h hnz hfr hcur htlb
                  generalize (if r.writeable ≠ 0 then
                    KVADDR_TO_PADDR al.1 &&& PAGE_FRAME ||| TLBLO_DIRTY
                    else KVADDR_TO_PADDR al.1 &&& PAGE_FRAME) ||| TLBLO_VALID = pte at h
                  have hk := insert_kernel (bzero al.2 al.1 PAGE_SIZE) pt pte a
                  have hc := insert_code (bzero al.2 al.1 PAGE_SIZE) pt pte a
                  split at h
                  · rename_i hfail
                    simp only [Option.some.injEq, Prod.mk.injEq] at h
                    obtain ⟨h1, h2⟩ := h
                    subst h2
                    refine ⟨?_, ?_, ?_, ?_, ?_⟩
                    · rw [← h1]
                      rcases hc with hc | hc | hc
                      · exact absurd hc hfail
                      · exact Or.inl hc
                      · exact Or.inr hc
                    · intro b
                      have e1 : (current_as s).as_pt = some pt := by
                        simp [current_as, has, hpt]
                      rw [e1, lookup_by_leaf, lookup_by_leaf (some pt)]
                      have e2 : ∀ c, page_leaf (some (insertPageTableEntry
                          (bzero al.2 al.1 PAGE_SIZE) pt pte a).2.1) c = page_leaf (some pt) c := by
                        intro c
                        unfold page_leaf
                        exact insert_fail_leaf_at _ pt pte a _ _ _ hfail
                      simp only [current_as, proc_getas, free_kpages, e2]
                    · have has1 : s.curproc_as = some as := has
                      simp [current_as, proc_getas, free_kpages, has1]
                    · show al.1 :: (insertPageTableEntry (bzero al.2 al.1 PAGE_SIZE) pt pte
                        a).2.2.free_frames = s.free_frames
                      rw [hk.2.1, hfr]
                      rfl
                    · show (insertPageTableEntry (bzero al.2 al.1 PAGE_SIZE) pt pte a).2.2.tlb =
                        s.tlb
                      rw [hk.2.2.2.1]
                      exact htlb
                  · rename_i hok
                    exact absurd (code h).symm hret

/-- Witness of C19: a READ fault at `0x1500` with one block left on the heap;
the frame is taken, the level-2 array is allocated, the allocation of the
level-3 array fails, and the call returns `ENOMEM`. -/
theorem vm_fault_failure_atomic_witness :
    vm_fault kernel_one_block VM_FAULT_READ 0x1500 =
      some (ENOMEM, kernel_after_fault kernel_one_block VM_FAULT_READ 0x1500) ∧
    (∀ b, page_table_lookup
        (current_as (kernel_after_fault kernel_one_block VM_FAULT_READ 0x1500)).as_pt b =
      page_table_lookup (current_as kernel_one_block).as_pt b) ∧
    (kernel_after_fault kernel_one_block VM_FAULT_READ 0x1500).free_frames =
      kernel_one_block.free_frames ∧
    (kernel_after_fault kernel_one_block VM_FAULT_READ 0x1500).tlb = kernel_one_block.tlb :=
  ⟨rfl,
    (vm_fault_failure_atomic kernel_one_block
      (kernel_after_fault kernel_one_block VM_FAULT_READ 0x1500) VM_FAULT_READ ENOMEM 0x1500
      rfl (by decide) (by decide)).2.1,
    (vm_fault_failure_atomic kernel_one_block
      (kernel_after_fault kernel_one_block VM_FAULT_READ 0x1500) VM_FAULT_READ ENOMEM 0x1500
      rfl (by decide) (by decide)).2.2.2.1,
    (vm_fault_failure_atomic kernel_one_block
      (kernel_after_fault kernel_one_block VM_FAULT_READ 0x1500) VM_FAULT_READ ENOMEM 0x1500
      rfl (by decide) (by decide)).2.2.2.2⟩

/-! ## Region definition -/

theorem define_region_last_result (s : Kernel) (front : List as_region) (curr : as_region)
    (vaddr memsize : Nat) (readable writeable executable : Int)
    (h : (as_define_region_last s front curr vaddr memsize readable writeable executable).1 = 0) :
    (as_define_region_last s front curr vaddr memsize readable writeable executable).2.1 =
      (if curr.size > 0 then front ++ [curr] else front) ++
        [{ base := vaddr, size := memsize, readable := readable, writeable := writeable,
           executable := executable, old_writeable := 0 }] := by
  unfold as_define_region_last at h ⊢
  simp only at h ⊢
  by_cases hs : curr.size > 0
  · simp only [if_pos hs] at h ⊢
    cases hm : kmalloc s with
    | mk r s1 =>
      cases r with
      | none => simp [hm, EFAULT] at h
      | some g => simp
  · simp only [if_neg hs]

/-- The list that a successful `as_define_region` leaves. -/
theorem define_region_result (s : Kernel) (a : addrspace) (vaddr memsize : Nat)
    (readable writeable executable : Int)
    (h : (as_define_region s (some a) vaddr memsize readable writeable executable).1 = 0) :
    ∃ ow, regions_of (as_define_region s (some a) vaddr memsize readable writeable executable).2.1 =
      (match a.as_regions.getLast? with
        | none => []
        | some last => if last.size > 0 then a.as_regions else a.as_regions.dropLast) ++
        [{ base := vaddr, size := memsize, readable := readable, writeable := writeable,
           executable := executable, old_writeable := ow }] := by
  unfold as_define_region at h ⊢
  simp only at h ⊢
  cases hl : a.as_regions with
  | nil =>
    simp only [hl] at h
    cases hm : kmalloc s with
    | mk r s1 =>
      cases r with
      | none => simp [hm, ENOMEM] at h
      | some g => exact ⟨g, by simp [regions_of]⟩
  | cons r rs =>
    simp only [hl] at h
    by_cases hw : as_define_region_walk vaddr memsize (r :: rs) = true
    · simp [hw, EBADF] at h
    · simp only [hw, Bool.false_eq_true, if_false] at h ⊢
      refine ⟨0, ?_⟩
      simp only [regions_of]
      rw [define_region_last_result _ _ _ _ _ _ _ _ h]
      have hg : (r :: rs).getLast? = some ((r :: rs).getLast (by simp)) :=
        List.getLast?_eq_getLast _ _
      rw [hg]
      simp only
      by_cases hs : ((r :: rs).getLast (by simp)).size > 0
      · simp only [if_pos hs]
        rw [List.dropLast_append_getLast]
      · simp only [if_neg hs]

/-- C11 as stated fails: on the empty address space, defining a region of
size 0 at `0x4000` returns 0 and gives one region; defining `[0x5000, 0x6000)`
after it returns 0 as well, and the list is then the one new region: the
region of size 0 is written over and the count stays 1. -/
theorem as_define_region_overwrites_empty :
    (as_define_region (kernel_with []) (some (as_with [])) 0x4000 0 4 2 0).1 = 0 ∧
    regions_of (as_define_region (kernel_with []) (some (as_with [])) 0x4000 0 4 2 0).2.1 =
      [region_empty] ∧
    (as_define_region (kernel_with []) (some (as_with [region_empty])) 0x5000 0x1000 4 2 0).1
      = 0 ∧
    regions_of
        (as_define_region (kernel_with []) (some (as_with [region_empty]))
          0x5000 0x1000 4 2 0).2.1 = [region_mid] ∧
    regions_of
        (as_define_region (kernel_with []) (some (as_with [region_empty]))
          0x5000 0x1000 4 2 0).2.1 ≠ [region_empty] ++ [region_mid] := by
  decide

/-- C11, amended. Whenever `as_define_region` returns 0 the page table is
untouched, and: when the list is empty or its last region has a size that is
not 0, the resulting list is the previous list, every region unchanged,
followed by exactly one new region with the given base, size, readable,
writeable and executable values; when the last region has size 0, the
resulting list is the previous list with that last region replaced by the
new region, and the count does not change. -/
theorem as_define_region_appends (s : Kernel) (a : addrspace) (vaddr memsize : Nat)
    (readable writeable executable : Int)
    (h : (as_define_region s (some a) vaddr memsize readable writeable executable).1 = 0) :
    ∃ a1 node,
      (as_define_region s (some a) vaddr memsize readable writeable executable).2.1 = some a1 ∧
      a1.as_pt = a.as_pt ∧
      node.base = vaddr ∧ node.size = memsize ∧ node.readable = readable ∧
      node.writeable = writeable ∧ node.executable = executable ∧
      ((a.as_regions = [] ∨ ∃ last, a.as_regions.getLast? = some last ∧ last.size ≠ 0) →
        a1.as_regions = a.as_regions ++ [node] ∧
          a1.as_regions.length = a.as_regions.length + 1) ∧
      (∀ last, a.as_regions.getLast? = some last → last.size = 0 →
        a1.as_regions = a.as_regions.dropLast ++ [node] ∧
          a1.as_regions.length = a.as_regions.length) := by
  obtain ⟨ow, hres⟩ := define_region_result s a vaddr memsize readable writeable executable h
  have hsome : ∃ a1, (as_define_region s (some a) vaddr memsize readable writeable
      executable).2.1 = some a1 ∧ a1.as_pt = a.as_pt := by
    unfold as_define_region
    simp only
    cases hl : a.as_regions with
    | nil =>
      simp only
      cases hm : kmalloc s with
      | mk r s1 => cases r <;> exact ⟨_, rfl, rfl⟩
    | cons r rs =>
      simp only
      split <;> exact ⟨_, rfl, rfl⟩
  obtain ⟨a1, ha1, hpt⟩ := hsome
  rw [ha1] at hres
  simp only [regions_of] at hres
  refine ⟨a1, (⟨vaddr, memsize, readable, writeable, executable, ow⟩ : as_region),
    ha1, hpt, rfl, rfl, rfl, rfl, rfl, ?_, ?_⟩
  · rintro (hnil | ⟨last, hlast, hsz⟩)
    · rw [hres, hnil]
      simp
    · rw [hres, hlast]
      have : last.size > 0 := Nat.pos_of_ne_zero hsz
      simp [this]
  · intro last hlast hsz
    rw [hres, hlast]
    simp only [hsz, gt_iff_lt, lt_self_iff_false, if_false, List.length_append,
      List.length_dropLast, List.length_singleton, true_and]
    have hne : a.as_regions ≠ [] := by
      intro hnil
      rw [hnil] at hlast
      simp at hlast
    have : 0 < a.as_regions.length := List.length_pos.mpr hne
    omega

/-- Witness of C11, amended: `[0x5000, 0x6000)` defined after the region
`[0x1000, 0x3000)`. -/
theorem as_define_region_appends_witness :
    (as_define_region (kernel_with []) (some (as_with [region_rw])) 0x5000 0x1000 4 2 0).1 = 0 ∧
    ∃ a1 node,
      (as_define_region (kernel_with []) (some (as_with [region_rw])) 0x5000 0x1000 4 2 0).2.1 =
        some a1 ∧
      a1.as_pt = (as_with [region_rw]).as_pt ∧
      node.base = 0x5000 ∧ node.size = 0x1000 ∧ node.readable = 4 ∧
      node.writeable = 2 ∧ node.executable = 0 ∧
      (((as_with [region_rw]).as_regions = [] ∨
          ∃ last, (as_with [region_rw]).as_regions.getLast? = some last ∧ last.size ≠ 0) →
        a1.as_regions = (as_with [region_rw]).as_regions ++ [node] ∧
          a1.as_regions.length = (as_with [region_rw]).as_regions.length + 1) ∧
      (∀ last, (as_with [region_rw]).as_regions.getLast? = some last → last.size = 0 →
        a1.as_regions = (as_with [region_rw]).as_regions.dropLast ++ [node] ∧
          a1.as_regions.length = (as_with [region_rw]).as_regions.length) :=
  ⟨by decide,
    as_define_region_appends (kernel_with []) (as_with [region_rw]) 0x5000 0x1000 4 2 0
      (by decide)⟩

/-! ## The stack region -/

/-- C16. `as_define_stack`: for an address space that is not absent and on
which the call of `as_define_region` for the stack returns 0,
`as_define_stack` returns 0, writes exactly `USERSTACK` to the stack pointer,
and the last region of the resulting list is the stack region: base
`USERSTACK - 16 * 4096`, size `16 * 4096` (it ends at `USERSTACK`), readable
and writeable flags not 0, executable flag 0. For an absent address space it
returns `EFAULT`, writes no stack pointer and changes nothing. -/
theorem as_define_stack_region (s : Kernel) (a : addrspace)
    (h : (as_define_region s (some a) (USERSTACK - 16 * 4096) (16 * 4096) 4 2 0).1 = 0) :
    (as_define_stack s (some a)).1 = 0 ∧
    (as_define_stack s (some a)).2.1 = some USERSTACK ∧
    (∃ front node, regions_of (as_define_stack s (some a)).2.2.1 = front ++ [node] ∧
      node.base = USERSTACK - 16 * 4096 ∧ node.size = 16 * 4096 ∧
      node.base + node.size = USERSTACK ∧
      node.readable ≠ 0 ∧ node.writeable ≠ 0 ∧ node.executable = 0) ∧
    as_define_stack s none = (EFAULT, none, none, s) := by
  have hsz : N_STACKPAGES * PAGE_SIZE = 16 * 4096 := by decide
  obtain ⟨ow, hres⟩ := define_region_result s a _ _ _ _ _ h
  have e : as_define_stack s (some a) =
      ((as_define_region s (some a) (USERSTACK - 16 * 4096) (16 * 4096) 4 2 0).1,
        some USERSTACK,
        (as_define_region s (some a) (USERSTACK - 16 * 4096) (16 * 4096) 4 2 0).2.1,
        (as_define_region s (some a) (USERSTACK - 16 * 4096) (16 * 4096) 4 2 0).2.2) := by
    unfold as_define_stack
    simp only [hsz]
    have harg2 : (USERSTACK + WORD - 16 * 4096) % WORD = USERSTACK - 16 * 4096 := by decide
    rw [harg2]
  rw [e]
  refine ⟨h, rfl, ⟨_, ⟨USERSTACK - 16 * 4096, 16 * 4096, 4, 2, 0, ow⟩, hres, rfl, rfl, ?_, ?_, ?_,
    rfl⟩, rfl⟩
  · show USERSTACK - 16 * 4096 + 16 * 4096 = USERSTACK
    decide
  · show (4 : Int) ≠ 0
    decide
  · show (2 : Int) ≠ 0
    decide

/-- Witness of C16: the stack defined on the address space with the region
`[0x1000, 0x3000)`. -/
theorem as_define_stack_region_witness :
    (as_define_stack (kernel_with []) (some (as_with [region_rw]))).1 = 0 ∧
    (as_define_stack (kernel_with []) (some (as_with [region_rw]))).2.1 = some USERSTACK ∧
    (∃ front node,
      regions_of (as_define_stack (kernel_with []) (some (as_with [region_rw]))).2.2.1 =
        front ++ [node] ∧
      node.base = USERSTACK - 16 * 4096 ∧ node.size = 16 * 4096 ∧
      node.base + node.size = USERSTACK ∧
      node.readable ≠ 0 ∧ node.writeable ≠ 0 ∧ node.executable = 0) ∧
    as_define_stack (kernel_with []) none = (EFAULT, none, none, kernel_with []) :=
  as_define_stack_region (kernel_with []) (as_with [region_rw]) (by decide)

/-! ## The load bracket -/

theorem prepare_load_result (a : addrspace) (hne : a.as_regions ≠ []) :
    as_prepare_load (some a) =
      (0, some { a with as_regions :=
        a.as_regions.map (fun curr => { curr with old_writeable := curr.writeable,
                                                  writeable := 2 }) }) := by
  unfold as_prepare_load
  simp only [if_neg hne]

theorem complete_load_result (s : Kernel) (a : addrspace) (pt : PTTop)
    (hne : a.as_regions ≠ []) (hpt : a.as_pt = some pt) :
    as_complete_load s (some a) =
      some (0, some { as_regions :=
                        a.as_regions.map (fun curr =>
                          { curr with writeable := curr.old_writeable }),
                      as_pt := some (for_loop (as_complete_load_top a) PTLEVEL1 0 pt) },
            as_activate s) := by
  unfold as_complete_load
  simp only [if_neg hne, hpt]

/-- C13. The load bracket on the region flags, for an address space with at
least one region. `as_prepare_load` returns 0, leaves the page table as it
is, and leaves a list of the same regions in the same order in which every
`writeable` flag is not 0 and base, size, readable and executable are
unchanged. A following `as_complete_load`, whatever the page table `pt` holds
by then, returns 0 and leaves a list of the same regions in which every
`writeable` flag is the one from before `as_prepare_load` and base, size,
readable and executable are unchanged. Both calls return `EFAULT` and change
nothing when the address space is absent or has no region. -/
theorem load_bracket_regions (a : addrspace) (hne : a.as_regions ≠ []) :
    (∃ a1, as_prepare_load (some a) = (0, some a1) ∧ a1.as_pt = a.as_pt ∧
      List.Forall₂ (fun r0 r1 : as_region =>
          r1.writeable ≠ 0 ∧ r1.base = r0.base ∧ r1.size = r0.size ∧
            r1.readable = r0.readable ∧ r1.executable = r0.executable)
        a.as_regions a1.as_regions ∧
      ∀ (s : Kernel) (pt : PTTop), ∃ a2 s2,
        as_complete_load s (some { a1 with as_pt := some pt }) = some (0, some a2, s2) ∧
        List.Forall₂ (fun r0 r2 : as_region =>
            r2.writeable = r0.writeable ∧ r2.base = r0.base ∧ r2.size = r0.size ∧
              r2.readable = r0.readable ∧ r2.executable = r0.executable)
          a.as_regions a2.as_regions) ∧
    as_prepare_load none = (EFAULT, none) ∧
    (∀ b : addrspace, b.as_regions = [] → as_prepare_load (some b) = (EFAULT, some b)) ∧
    (∀ s : Kernel, as_complete_load s none = some (EFAULT, none, s)) ∧
    (∀ (s : Kernel) (b : addrspace), b.as_regions = [] →
      as_complete_load s (some b) = some (EFAULT, some b, s)) := by
  refine ⟨⟨_, prepare_load_result a hne, rfl, ?_, ?_⟩, rfl, ?_, fun s => rfl, ?_⟩
  · simp only [List.forall₂_map_right_iff]
    exact List.forall₂_same.mpr (fun r _ => ⟨by decide, rfl, rfl, rfl, rfl⟩)
  · intro s pt
    have hne1 : a.as_regions.map (fun curr : as_region =>
        { curr with old_writeable := curr.writeable, writeable := 2 }) ≠ [] := by
      simpa using hne
    refine ⟨_, _, complete_load_result s _ pt hne1 rfl, ?_⟩
    simp only [List.forall₂_map_right_iff]
    exact List.forall₂_same.mpr (fun r _ => ⟨rfl, rfl, rfl, rfl, rfl⟩)
  · intro b hb
    unfold as_prepare_load
    simp [hb]
  · intro s b hb
    unfold as_complete_load
    simp [hb]

/-- Witness of C13: the address space with the read-only region
`[0x1000, 0x3000)`. -/
theorem load_bracket_regions_witness :
    ∃ a1, as_prepare_load (some (as_with [region_ro])) = (0, some a1) ∧
      a1.as_pt = (as_with [region_ro]).as_pt ∧
      List.Forall₂ (fun r0 r1 : as_region =>
          r1.writeable ≠ 0 ∧ r1.base = r0.base ∧ r1.size = r0.size ∧
            r1.readable = r0.readable ∧ r1.executable = r0.executable)
        (as_with [region_ro]).as_regions a1.as_regions ∧
      ∀ (s : Kernel) (pt : PTTop), ∃ a2 s2,
        as_complete_load s (some { a1 with as_pt := some pt }) = some (0, some a2, s2) ∧
        List.Forall₂ (fun r0 r2 : as_region =>
            r2.writeable = r0.writeable ∧ r2.base = r0.base ∧ r2.size = r0.size ∧
              r2.readable = r0.readable ∧ r2.executable = r0.executable)
          (as_with [region_ro]).as_regions a2.as_regions :=
  (load_bracket_regions (as_with [region_ro]) (by decide)).1

/-! ## Load completion -/

set_option maxRecDepth 8192 in
/-- C12, the code at a failing input. The read-only region `[0x1800, 0x2000)`
is defined with base `0x1800`, not page-aligned. After `as_prepare_load` a
WRITE fault at `0x1800` populates the page `0x1000` with a dirty leaf,
`0x5600`. `as_complete_load` returns 0 and restores `writeable = 0`, but the
leaf of the page is still `0x5600`, dirty bit set: the walk looks up the page
address `get_address 0 0 1 = 0x1000`, which lies in no region, and skips the
leaf. -/
theorem as_complete_load_leaves_dirty :
    region_text.writeable = 0 ∧
    (region_text.base ≤ 0x1800 ∧ 0x1800 < region_text.base + region_text.size) ∧
    (as_prepare_load (some (as_with [region_text]))).1 = 0 ∧
    (vm_fault { kernel_with [] with curproc_as := load_prepared } VM_FAULT_WRITE 0x1800).map
      (fun r => r.1) = some 0 ∧
    page_table_lookup (current_as load_faulted).as_pt 0x1800 = 0x5600 ∧
    code_of load_completed = some 0 ∧
    (as_after load_completed).as_regions = [region_text] ∧
    get_address (get_8_mostsb 0x1800) (get_6_middlesb 0x1800) (get_6_leastsb 0x1800) = 0x1000 ∧
    find_region (current_as load_faulted) 0x1000 = none ∧
    page_table_lookup (as_after load_completed).as_pt 0x1800 = 0x5600 ∧
    0x5600 &&& TLBLO_DIRTY ≠ 0 := by
  decide

/-! ## Loops -/

theorem for_loop_update {α : Type} (body : Nat → (Nat → α) → (Nat → α)) (g : Nat → α → α)
    (hb : ∀ i st, body i st = Function.update st i (g i (st i))) :
    ∀ (n lo : Nat) (st : Nat → α) (x : Nat),
      for_loop body n lo st x = if lo ≤ x ∧ x < lo + n then g x (st x) else st x := by
  intro n
  induction n with
  | zero =>
    intro lo st x
    have : ¬ (lo ≤ x ∧ x < lo + 0) := by omega
    rw [for_loop, if_neg this]
  | succ n ih =>
    intro lo st x
    rw [for_loop, ih, hb]
    by_cases hx : x = lo
    · subst hx
      have h1 : ¬ (x + 1 ≤ x ∧ x < x + 1 + n) := by omega
      have h2 : x ≤ x ∧ x < x + (n + 1) := by omega
      simp [h1, h2]
    · rw [Function.update_noteq hx]
      by_cases h1 : lo + 1 ≤ x ∧ x < lo + 1 + n
      · have h2 : lo ≤ x ∧ x < lo + (n + 1) := by omega
        rw [if_pos h1, if_pos h2]
      · have h2 : ¬ (lo ≤ x ∧ x < lo + (n + 1)) := by omega
        rw [if_neg h1, if_neg h2]

theorem for_loop_ret_inv {σ : Type} (body : Nat → σ → Int × σ) (P : σ → Prop)
    (hb : ∀ i st, P st → P (body i st).2) :
    ∀ (n lo : Nat) (st : σ), P st → P (for_loop_ret body n lo st).2 := by
  intro n
  induction n with
  | zero => intro lo st h; exact h
  | succ n ih =>
    intro lo st h
    rw [for_loop_ret]
    split
    · exact hb lo st h
    · exact ih _ _ (hb lo st h)

/-! ## The walk of `as_complete_load` over the table -/

theorem complete_load_entry_zero (a : addrspace) (i j k : Nat) :
    as_complete_load_entry a i j k 0 = 0 := by
  simp [as_complete_load_entry]

/-- The leaves after the walk of `as_complete_load`. -/
theorem complete_load_leaf_at (a : addrspace) (pt : PTTop) (i j k : Nat) :
    leaf_at (some (for_loop (as_complete_load_top a) PTLEVEL1 0 pt)) i j k =
      if i < PTLEVEL1 ∧ j < PTLEVEL2 ∧ k < PTLEVEL3 then
        as_complete_load_entry a i j k (leaf_at (some pt) i j k)
      else leaf_at (some pt) i j k := by
  rw [leaf_at_some, leaf_at_some,
    for_loop_update (as_complete_load_top a)
      (fun i v => match v with
        | none => none
        | some l2 => some (for_loop (as_complete_load_mid a i) PTLEVEL2 0 l2))
      (fun _ _ => rfl) PTLEVEL1 0 pt i]
  by_cases hi : i < PTLEVEL1
  · have hi0 : 0 ≤ i ∧ i < 0 + PTLEVEL1 := by omega
    rw [if_pos hi0]
    cases h1 : pt i with
    | none => simp [leaf_mid, complete_load_entry_zero]
    | some l2 =>
      simp only [leaf_mid_some]
      rw [for_loop_update (as_complete_load_mid a i)
        (fun j v => match v with
          | none => none
          | some l3 => some (for_loop (as_complete_load_leaf a i j) PTLEVEL3 0 l3))
        (fun _ _ => rfl) PTLEVEL2 0 l2 j]
      by_cases hj : j < PTLEVEL2
      · have hj0 : 0 ≤ j ∧ j < 0 + PTLEVEL2 := by omega
        rw [if_pos hj0]
        cases h2 : l2 j with
        | none => simp [leaf_low, complete_load_entry_zero]
        | some l3 =>
          simp only [leaf_low_some]
          rw [for_loop_update (as_complete_load_leaf a i j)
            (fun k v => as_complete_load_entry a i j k v) (fun _ _ => rfl) PTLEVEL3 0 l3 k]
          by_cases hk : k < PTLEVEL3
          · have hk0 : 0 ≤ k ∧ k < 0 + PTLEVEL3 := by omega
            rw [if_pos hk0, if_pos ⟨hi, hj, hk⟩]
          · have hk0 : ¬ (0 ≤ k ∧ k < 0 + PTLEVEL3) := by omega
            rw [if_neg hk0, if_neg (by tauto)]
      · have hj0 : ¬ (0 ≤ j ∧ j < 0 + PTLEVEL2) := by omega
        rw [if_neg hj0, if_neg (by tauto)]
  · have hi0 : ¬ (0 ≤ i ∧ i < 0 + PTLEVEL1) := by omega
    rw [if_neg hi0, if_neg (by tauto)]

/-! ## The valid bit -/

theorem or_valid_or_and_valid (x d : Nat) : (x ||| TLBLO_VALID ||| d) &&& TLBLO_VALID ≠ 0 := by
  rw [Nat.or_assoc, Nat.or_comm TLBLO_VALID d, ← Nat.or_assoc]
  exact or_valid_and_valid _

theorem create_result (s : Kernel) (a : addrspace) (h : (as_create s).1 = some a) :
    a = { as_regions := [], as_pt := some (fun _ => none) } := by
  unfold as_create at h
  cases h1 : kmalloc s with
  | mk r s1 =>
    simp only [h1] at h
    cases r with
    | none => simp at h
    | some g =>
      simp only at h
      cases h2 : kmalloc s1 with
      | mk r2 s2 =>
        simp only [h2] at h
        cases r2 with
        | none => simp at h
        | some g2 =>
          simp only [Option.some.injEq] at h
          exact h.symm

theorem define_region_pt (s : Kernel) (a a1 : addrspace) (vaddr memsize : Nat)
    (readable writeable executable : Int)
    (h : (as_define_region s (some a) vaddr memsize readable writeable executable).2.1 = some a1) :
    a1.as_pt = a.as_pt := by
  unfold as_define_region at h
  simp only at h
  cases hl : a.as_regions with
  | nil =>
    simp only [hl] at h
    cases hm : kmalloc s with
    | mk r s1 =>
      simp only [hm] at h
      cases r with
      | none =>
        simp only [Option.some.injEq] at h
        rw [← h]
      | some g =>
        simp only [Option.some.injEq] at h
        rw [← h]
  | cons r rs =>
    simp only [hl] at h
    split at h
    · simp only [Option.some.injEq] at h
      rw [← h]
    · simp only [Option.some.injEq] at h
      rw [← h]

theorem define_stack_pt (s : Kernel) (a a1 : addrspace)
    (h : (as_define_stack s (some a)).2.2.1 = some a1) : a1.as_pt = a.as_pt := by
  unfold as_define_stack at h
  exact define_region_pt s a a1 _ _ _ _ _ h

theorem prepare_load_pt (a a1 : addrspace) (h : (as_prepare_load (some a)).2 = some a1) :
    a1.as_pt = a.as_pt := by
  unfold as_prepare_load at h
  simp only at h
  split at h
  · simp only [Option.some.injEq] at h
    rw [← h]
  · simp only [Option.some.injEq] at h
    rw [← h]

theorem complete_load_entry_valid (a : addrspace) (i j k v : Nat)
    (h : v = 0 ∨ v &&& TLBLO_VALID ≠ 0) :
    as_complete_load_entry a i j k v = 0 ∨
      as_complete_load_entry a i j k v &&& TLBLO_VALID ≠ 0 := by
  unfold as_complete_load_entry
  by_cases h0 : v = 0
  · simp [h0]
  · have hv : v &&& TLBLO_VALID ≠ 0 := h.resolve_left h0
    simp only [ne_eq, h0, not_false_eq_true, if_true]
    cases find_region a (get_address i j k) with
    | none => exact Or.inr hv
    | some region =>
      simp only
      split
      · exact Or.inr (or_valid_and_valid _)
      · exact Or.inr hv

theorem complete_load_leaves_valid (s s1 : Kernel) (a a1 : addrspace) (ret : Int)
    (h : as_complete_load s (some a) = some (ret, some a1, s1))
    (hv : leaves_valid a.as_pt) : leaves_valid a1.as_pt := by
  unfold as_complete_load at h
  simp only at h
  split at h
  · simp only [Option.some.injEq, Prod.mk.injEq] at h
    rw [← h.2.1]
    exact hv
  · cases hpt : a.as_pt with
    | none => simp [hpt] at h
    | some pt =>
      simp only [hpt, Option.some.injEq, Prod.mk.injEq] at h
      rw [← h.2.1]
      intro i j k
      simp only
      rw [complete_load_leaf_at]
      rw [hpt] at hv
      split
      · exact complete_load_entry_valid a i j k _ (hv i j k)
      · exact hv i j k

/-- After a fault that returns, every leaf of the table of the process is the
leaf from before or has the valid bit, and the regions are those from
before. -/
theorem fault_effect (s s1 : Kernel) (a a1 : addrspace) (faulttype ret : Int) (addr : Nat)
    (has : proc_getas s = some a) (h : vm_fault s faulttype addr = some (ret, s1))
    (has1 : proc_getas s1 = some a1) :
    a1.as_regions = a.as_regions ∧
    ∀ i j k, leaf_at a1.as_pt i j k = leaf_at a.as_pt i j k ∨
      leaf_at a1.as_pt i j k &&& TLBLO_VALID ≠ 0 := by
  have same : ∀ {r : Int} {t : Kernel}, some (r, t) = some (ret, s1) → proc_getas t = proc_getas s →
      a1.as_regions = a.as_regions ∧
      ∀ i j k, leaf_at a1.as_pt i j k = leaf_at a.as_pt i j k ∨
        leaf_at a1.as_pt i j k &&& TLBLO_VALID ≠ 0 := by
    intro r t hh ht
    simp only [Option.some.injEq, Prod.mk.injEq] at hh
    rw [← hh.2, ht, has] at has1
    simp only [Option.some.injEq] at has1
    rw [← has1]
    exact ⟨rfl, fun _ _ _ => Or.inl rfl⟩
  unfold vm_fault at h
  split at h
  · exact same h rfl
  · simp only [has] at h
    split at h
    · split at h
      · exact same h rfl
      · exact same h rfl
    · cases hreg : addr_to_region a.as_regions addr with
      | none =>
        simp only [hreg] at h
        exact same h rfl
      | some r =>
        simp only [hreg] at h
        split at h
        · exact same h rfl
        · split at h
          · exact same h rfl
          · have hal : proc_getas (alloc_kpages s).2 = proc_getas s := by
              unfold alloc_kpages
              cases s.free_frames <;> rfl
            split at h
            · exact same h hal
            · cases hpt : a.as_pt with
              | none => simp [hpt] at h
              | some pt =>
                simp only [hpt] at h
                generalize alloc_kpages s = al at h
                have hpv := or_valid_and_valid (if r.writeable ≠ 0 then
                  KVADDR_TO_PADDR al.1 &&& PAGE_FRAME ||| TLBLO_DIRTY
                  else KVADDR_TO_PADDR al.1 &&& PAGE_FRAME)
                generalize (if r.writeable ≠ 0 then
                  KVADDR_TO_PADDR al.1 &&& PAGE_FRAME ||| TLBLO_DIRTY
                  else KVADDR_TO_PADDR al.1 &&& PAGE_FRAME) ||| TLBLO_VALID = pte at h hpv
                split at h
                · rename_i hfail
                  simp only [Option.some.injEq, Prod.mk.injEq] at h
                  rw [← h.2] at has1
                  simp only [proc_getas, free_kpages, Option.some.injEq] at has1
                  rw [← has1]
                  exact ⟨rfl, fun i j k => Or.inl (insert_fail_leaf_at _ pt pte addr i j k hfail)⟩
                · rename_i hok
                  have hret := not_not.mp hok
                  rw [insert_into_tlb_eq] at h
                  simp only [Option.some.injEq, Prod.mk.injEq] at h
                  rw [← h.2] at has1
                  simp only [proc_getas, Option.some.injEq] at has1
                  rw [← has1]
                  refine ⟨rfl, fun i j k => ?_⟩
                  by_cases hidx : i = get_8_mostsb addr ∧ j = get_6_middlesb addr ∧
                      k = get_6_leastsb addr
                  · right
                    obtain ⟨e1, e2, e3⟩ := hidx
                    subst e1 e2 e3
                    have hl := insert_leaf_ok _ pt pte addr hret
                    unfold page_leaf at hl
                    simp only [hl]
                    exact hpv
                  · left
                    exact insert_leaf_at_other _ pt pte addr i j k hidx

theorem fault_leaves_valid (s s1 : Kernel) (a a1 : addrspace) (faulttype ret : Int) (addr : Nat)
    (has : proc_getas s = some a) (h : vm_fault s faulttype addr = some (ret, s1))
    (has1 : proc_getas s1 = some a1) (hv : leaves_valid a.as_pt) : leaves_valid a1.as_pt := by
  intro i j k
  rcases (fault_effect s s1 a a1 faulttype ret addr has h has1).2 i j k with e | e
  · rw [e]; exact hv i j k
  · exact Or.inr e

theorem copy_leaf_valid (old3 : PTLeaf) (n lo : Nat) (st : PTLeaf × Kernel)
    (h : ∀ k, st.1 k = 0 ∨ st.1 k &&& TLBLO_VALID ≠ 0) :
    ∀ k, (for_loop_ret (copy_Page_Table_leaf old3) n lo st).2.1 k = 0 ∨
      (for_loop_ret (copy_Page_Table_leaf old3) n lo st).2.1 k &&& TLBLO_VALID ≠ 0 := by
  apply for_loop_ret_inv (copy_Page_Table_leaf old3)
    (fun st => ∀ k, st.1 k = 0 ∨ st.1 k &&& TLBLO_VALID ≠ 0) _ n lo st h
  intro i st hst k
  unfold copy_Page_Table_leaf
  simp only
  split
  · split
    · exact hst k
    · simp only [Function.update_apply]
      split
      · exact Or.inr (or_valid_or_and_valid _ _)
      · exact hst k
  · simp only [Function.update_apply]
    split
    · exact Or.inl rfl
    · exact hst k

theorem copy_mid_valid (old2 : PTMid) (n lo : Nat) (st : PTMid × Kernel)
    (h : ∀ j k, leaf_low (st.1 j) k = 0 ∨ leaf_low (st.1 j) k &&& TLBLO_VALID ≠ 0) :
    ∀ j k, leaf_low ((for_loop_ret (copy_Page_Table_mid old2) n lo st).2.1 j) k = 0 ∨
      leaf_low ((for_loop_ret (copy_Page_Table_mid old2) n lo st).2.1 j) k &&& TLBLO_VALID ≠ 0 := by
  apply for_loop_ret_inv (copy_Page_Table_mid old2)
    (fun st => ∀ j k, leaf_low (st.1 j) k = 0 ∨ leaf_low (st.1 j) k &&& TLBLO_VALID ≠ 0) _ n lo st h
  intro i st hst j k
  unfold copy_Page_Table_mid
  cases old2 i with
  | none =>
    simp only [Function.update_apply]
    split
    · exact Or.inl rfl
    · exact hst j k
  | some old3 =>
    simp only
    cases hm : kmalloc st.2 with
    | mk r s1 =>
      cases r with
      | none =>
        simp only [Function.update_apply]
        split
        · exact Or.inl rfl
        · exact hst j k
      | some g =>
        simp only [Function.update_apply]
        split
        · exact copy_leaf_valid old3 PTLEVEL3 0 (fun _ => 0, s1) (fun _ => Or.inl rfl) k
        · exact hst j k

theorem copy_top_valid (oldPT : PTTop) (n lo : Nat) (st : PTTop × Kernel)
    (h : ∀ i j k, leaf_mid (st.1 i) j k = 0 ∨ leaf_mid (st.1 i) j k &&& TLBLO_VALID ≠ 0) :
    ∀ i j k, leaf_mid ((for_loop_ret (copy_Page_Table_top oldPT) n lo st).2.1 i) j k = 0 ∨
      leaf_mid ((for_loop_ret (copy_Page_Table_top oldPT) n lo st).2.1 i) j k &&&
        TLBLO_VALID ≠ 0 := by
  apply for_loop_ret_inv (copy_Page_Table_top oldPT)
    (fun st => ∀ i j k, leaf_mid (st.1 i) j k = 0 ∨ leaf_mid (st.1 i) j k &&& TLBLO_VALID ≠ 0)
    _ n lo st h
  intro i0 st hst i j k
  unfold copy_Page_Table_top
  cases oldPT i0 with
  | none =>
    simp only [Function.update_apply]
    split
    · exact Or.inl rfl
    · exact hst i j k
  | some old2 =>
    simp only
    cases hm : kmalloc st.2 with
    | mk r s1 =>
      cases r with
      | none =>
        simp only [Function.update_apply]
        split
        · exact Or.inl rfl
        · exact hst i j k
      | some g =>
        simp only [Function.update_apply]
        split
        · exact copy_mid_valid old2 PTLEVEL2 0 (fun _ => none, s1) (fun _ _ => Or.inl rfl) j k
        · exact hst i j k

/-- Every leaf of the table that `copy_Page_Table` builds on the fresh table
of `as_create` is 0 or has the valid bit. -/
theorem copy_leaves_valid (s : Kernel) (oldPT : PTTop) :
    leaves_valid (some (copy_Page_Table s oldPT (fun _ => none)).2.1) := by
  intro i j k
  rw [leaf_at_some]
  exact copy_top_valid oldPT PTLEVEL1 0 (fun _ => none, s) (fun _ _ _ => Or.inl rfl) i j k

/-- The address space that a successful `as_copy` gives: the regions that the
loop over the old list leaves and the table that `copy_Page_Table` builds on
a fresh table. -/
theorem as_copy_success (s s1 : Kernel) (a a1 : addrspace)
    (h : as_copy s (some a) = some (0, some a1, s1)) :
    ∃ old_pt, a.as_pt = some old_pt ∧ a.as_regions ≠ [] ∧
      a1.as_regions =
        (as_copy_regions (as_create s).2 a.as_regions []).2.1 ∧
      (as_copy_regions (as_create s).2 a.as_regions []).1 = 0 ∧
      (copy_Page_Table (as_copy_regions (as_create s).2 a.as_regions []).2.2 old_pt
        (fun _ => none)).1 = 0 ∧
      a1.as_pt = some (copy_Page_Table (as_copy_regions (as_create s).2 a.as_regions []).2.2
        old_pt (fun _ => none)).2.1 ∧
      s1 = (copy_Page_Table (as_copy_regions (as_create s).2 a.as_regions []).2.2 old_pt
        (fun _ => none)).2.2 := by
  unfold as_copy at h
  simp only at h
  cases hl : a.as_regions with
  | nil => simp [hl, EFAULT] at h
  | cons r rs =>
    cases hpt : a.as_pt with
    | none => simp [hl, hpt, EFAULT] at h
    | some old_pt =>
      simp only [hl, hpt] at h
      cases hc : as_create s with
      | mk na s0 =>
        simp only [hc] at h
        cases na with
        | none => simp [ENOMEM] at h
        | some newas =>
          have hnew := create_result s newas (by rw [hc])
          subst hnew
          simp only at h
          split at h
          · rename_i hfail
            simp only [Option.some.injEq, Prod.mk.injEq] at h
            exact absurd h.1 hfail
          · rename_i hok
            split at h
            · simp at h
            · rename_i hok2
              simp only [Option.some.injEq, Prod.mk.injEq, true_and] at h
              refine ⟨old_pt, rfl, by simp, ?_, not_not.mp hok, not_not.mp hok2, ?_, h.2.symm⟩
              · rw [← h.1]
              · rw [← h.1]

theorem as_copy_leaves_valid (s s1 : Kernel) (a a1 : addrspace)
    (h : as_copy s (some a) = some (0, some a1, s1)) : leaves_valid a1.as_pt := by
  obtain ⟨old_pt, -, -, -, -, -, hpt, -⟩ := as_copy_success s s1 a a1 h
  rw [hpt]
  exact copy_leaves_valid _ old_pt

theorem reachable_leaves_valid (a : addrspace) (h : reachable a) : leaves_valid a.as_pt := by
  induction h with
  | create s a h =>
    rw [create_result s a h]
    intro i j k
    exact Or.inl rfl
  | define_region s a a1 vaddr memsize readable writeable executable _ h ih =>
    rw [define_region_pt s a a1 _ _ _ _ _ h]; exact ih
  | define_stack s a a1 _ h ih =>
    rw [define_stack_pt s a a1 h]; exact ih
  | prepare_load a a1 _ h ih =>
    rw [prepare_load_pt a a1 h]; exact ih
  | fault s s1 a a1 faulttype ret faultaddress _ has h has1 ih =>
    exact fault_leaves_valid s s1 a a1 faulttype ret faultaddress has h has1 ih
  | complete_load s s1 a a1 ret _ h ih =>
    exact complete_load_leaves_valid s s1 a a1 ret h ih
  | copy s s1 a a1 _ h _ =>
    exact as_copy_leaves_valid s s1 a a1 h

/-- C18. The valid-bit invariant: in every address space reachable from
`as_create` by calls of `as_define_region`, `as_define_stack`,
`as_prepare_load`, `vm_fault`, `as_complete_load` and `as_copy`, every leaf
of the page table is 0 or has the valid bit `TLBLO_VALID`; hence for a page
that has a leaf, `page_table_lookup` returns that leaf with its valid bit,
and a READ or WRITE fault on that page takes the warm path: it returns
`EFAULT` without any change, or it returns 0 and changes nothing but the
TLB. -/
theorem valid_bit_invariant (a : addrspace) (h : reachable a) :
    (∀ i j k, leaf_at a.as_pt i j k = 0 ∨ leaf_at a.as_pt i j k &&& TLBLO_VALID ≠ 0) ∧
    (∀ addr, addr < WORD → page_leaf a.as_pt addr ≠ 0 →
      page_table_lookup a.as_pt addr = page_leaf a.as_pt addr ∧
      page_table_lookup a.as_pt addr &&& TLBLO_VALID ≠ 0) ∧
    (∀ (s : Kernel) (faulttype : Int) (addr : Nat), proc_getas s = some a → addr < WORD →
      faulttype = VM_FAULT_READ ∨ faulttype = VM_FAULT_WRITE →
      page_leaf a.as_pt addr ≠ 0 →
      vm_fault s faulttype addr = some (EFAULT, s) ∨
      vm_fault s faulttype addr =
        some (0, { s with tlb := s.tlb ++
          [tlb_call.random (addr &&& PAGE_FRAME) (page_leaf a.as_pt addr)] })) := by
  have hv := reachable_leaves_valid a h
  have hvalid : ∀ addr, page_leaf a.as_pt addr ≠ 0 →
      page_leaf a.as_pt addr &&& TLBLO_VALID ≠ 0 := by
    intro addr hne
    exact (hv _ _ _).resolve_left hne
  refine ⟨hv, ?_, ?_⟩
  · intro addr ha hne
    rw [lookup_of_leaf_ne_zero a.as_pt addr ha hne]
    exact ⟨rfl, hvalid addr hne⟩
  · intro s faulttype addr has ha htype hne
    have hro : faulttype ≠ VM_FAULT_READONLY := by
      rcases htype with e | e <;> rw [e] <;> decide
    rw [fault_on_valid_leaf s a faulttype addr has ha hro (hvalid addr hne)]
    split
    · exact Or.inl rfl
    · exact Or.inr rfl

/-- Witness of C18: the address space of the fault scenario after the READ
fault at `0x1500`, reached by `as_create`, `as_define_region` and
`vm_fault`. -/
theorem valid_bit_invariant_witness :
    reachable (current_as (kernel_after_fault (kernel_with [region_rw]) VM_FAULT_READ 0x1500)) ∧
    page_leaf (current_as
      (kernel_after_fault (kernel_with [region_rw]) VM_FAULT_READ 0x1500)).as_pt 0x1500 ≠ 0 ∧
    page_table_lookup (current_as
        (kernel_after_fault (kernel_with [region_rw]) VM_FAULT_READ 0x1500)).as_pt 0x1500 &&&
      TLBLO_VALID ≠ 0 :=
  ⟨reachable.fault (kernel_with [region_rw]) _ (as_with [region_rw]) _ VM_FAULT_READ 0 0x1500
      (reachable.define_region (kernel_with []) (as_with []) _ 0x1000 0x2000 4 2 0
        (reachable.create (kernel_with []) _ rfl) rfl) rfl rfl rfl,
    by decide,
    ((valid_bit_invariant _
      (reachable.fault (kernel_with [region_rw]) _ (as_with [region_rw]) _ VM_FAULT_READ 0 0x1500
        (reachable.define_region (kernel_with []) (as_with []) _ 0x1000 0x2000 4 2 0
          (reachable.create (kernel_with []) _ rfl) rfl) rfl rfl rfl)).2.1 0x1500 (by decide)
      (by decide)).2⟩

/-! ## Copying an address space -/

theorem for_loop_ret_ind {σ : Type} (body : Nat → σ → Int × σ) (P : Nat → σ → Prop)
    (hb : ∀ i st, P i st → (body i st).1 = 0 → P (i + 1) (body i st).2) :
    ∀ (m lo : Nat) (st : σ), P lo st → (for_loop_ret body m lo st).1 = 0 →
      P (lo + m) (for_loop_ret body m lo st).2 := by
  intro m
  induction m with
  | zero => intro lo st h _; exact h
  | succ m ih =>
    intro lo st h hr
    rw [for_loop_ret] at hr ⊢
    by_cases hc : (body lo st).1 ≠ 0
    · rw [if_pos hc] at hr
      exact absurd hr hc
    · rw [if_neg hc] at hr ⊢
      have := ih (lo + 1) (body lo st).2 (hb lo st h (not_not.mp hc)) hr
      rw [Nat.add_assoc, Nat.add_comm 1] at this
      exact this

theorem frames_taken_refl (s : Kernel) : frames_taken s s :=
  ⟨List.suffix_refl _, fun _ h => absurd rfl h⟩

theorem frames_taken_trans (s t u : Kernel) (h1 : frames_taken s t) (h2 : frames_taken t u) :
    frames_taken s u := by
  refine ⟨h2.1.trans h1.1, ?_⟩
  intro x hx
  by_cases hs : t.mem x = s.mem x
  · rw [← hs] at hx
    obtain ⟨f, hf1, hf2, hf3⟩ := h2.2 x hx
    exact ⟨f, h1.1.subset hf1, hf2, hf3⟩
  · obtain ⟨f, hf1, hf2, hf3⟩ := h1.2 x hs
    exact ⟨f, hf1, fun hm => hf2 (h2.1.subset hm), hf3⟩

theorem frames_taken_of_eq (s t : Kernel) (h1 : t.free_frames = s.free_frames)
    (h2 : t.mem = s.mem) : frames_taken s t := by
  refine ⟨by rw [h1], ?_⟩
  intro x hx
  rw [h2] at hx
  exact absurd rfl hx

theorem aligned_frames_eq (f g off x : Nat) (hf : f % PAGE_SIZE = 0) (hg : g % PAGE_SIZE = 0)
    (hoff : off < PAGE_SIZE) (hx : x = f + off) (hin : in_frame g x) : g = f := by
  unfold in_frame at hin
  unfold PAGE_SIZE at *
  omega

theorem frame_of_aligned (leaf : Nat) : frame_of leaf % PAGE_SIZE = 0 := by
  have h := and_page_frame_mod leaf
  unfold frame_of PADDR_TO_KVADDR MIPS_KSEG0 WORD
  unfold PAGE_SIZE at *
  omega

theorem leaf_copied_mono (s0 s t : Kernel) (o n : Nat)
    (hal : ∀ f ∈ s0.free_frames, f % PAGE_SIZE = 0 ∧ f < WORD)
    (hs : s.free_frames <:+ s0.free_frames)
    (hc : leaf_copied s0 s o n) (ht : frames_taken s t) : leaf_copied s0 t o n := by
  refine ⟨hc.1, fun ho => ?_⟩
  obtain ⟨f, hf0, hfs, hn, hmem⟩ := hc.2 ho
  refine ⟨f, hf0, fun hm => hfs (ht.1.subset hm), hn, ?_⟩
  intro off hoff
  rw [← hmem off hoff]
  by_contra hne
  obtain ⟨g, hg1, _, hg3⟩ := ht.2 (f + off) hne
  have hgf : g = f := aligned_frames_eq f g off (f + off) (hal f hf0).1
    (hal g (hs.subset hg1)).1 hoff rfl hg3
  rw [hgf] at hg1
  exact hfs hg1

theorem old_frame_kept (s0 t : Kernel) (o off : Nat)
    (hal : ∀ f ∈ s0.free_frames, f % PAGE_SIZE = 0 ∧ f < WORD)
    (hun : ∀ f ∈ s0.free_frames, f ≠ frame_of o)
    (ht : frames_taken s0 t) (hoff : off < PAGE_SIZE) :
    t.mem (frame_of o + off) = s0.mem (frame_of o + off) := by
  by_contra hne
  obtain ⟨g, hg1, _, hg3⟩ := ht.2 _ hne
  have hgf : g = frame_of o := aligned_frames_eq (frame_of o) g off _ (frame_of_aligned o)
    (hal g hg1).1 hoff rfl hg3
  exact hun g hg1 hgf

theorem copy_leaf_body (old3 : PTLeaf) (k : Nat) (st : PTLeaf × Kernel) (h0 : old3 k ≠ 0)
    (hr : (copy_Page_Table_leaf old3 k st).1 = 0) :
    ∃ f rest, st.2.free_frames = f :: rest ∧ f ≠ 0 ∧
      copy_Page_Table_leaf old3 k st =
        (0, (Function.update st.1 k
          ((KVADDR_TO_PADDR f &&& PAGE_FRAME) ||| TLBLO_VALID ||| (old3 k &&& TLBLO_DIRTY)),
          memcpy (bzero { st.2 with free_frames := rest } f PAGE_SIZE) f
            (frame_of (old3 k)) PAGE_SIZE)) := by
  unfold copy_Page_Table_leaf at hr ⊢
  simp only [if_pos h0] at hr ⊢
  cases hfl : st.2.free_frames with
  | nil => simp [alloc_kpages, hfl, ENOMEM] at hr
  | cons f rest =>
    simp only [alloc_kpages, hfl] at hr ⊢
    by_cases hf : f = 0
    · simp [hf, ENOMEM] at hr
    · refine ⟨f, rest, rfl, hf, ?_⟩
      simp only [if_neg hf]
      rfl

theorem copy_leaf_step (s0 : Kernel) (old3 : PTLeaf) (k : Nat) (st : PTLeaf × Kernel)
    (hal : ∀ f ∈ s0.free_frames, f % PAGE_SIZE = 0 ∧ f < WORD)
    (hnd : s0.free_frames.Nodup)
    (hun : old3 k ≠ 0 → ∀ f ∈ s0.free_frames, f ≠ frame_of (old3 k))
    (ht : frames_taken s0 st.2)
    (hr : (copy_Page_Table_leaf old3 k st).1 = 0) :
    frames_taken st.2 (copy_Page_Table_leaf old3 k st).2.2 ∧
    leaf_copied s0 (copy_Page_Table_leaf old3 k st).2.2 (old3 k)
      ((copy_Page_Table_leaf old3 k st).2.1 k) ∧
    ∀ k', k' ≠ k → (copy_Page_Table_leaf old3 k st).2.1 k' = st.1 k' := by
  by_cases h0 : old3 k ≠ 0
  · obtain ⟨f, rest, hfl, hf, hbody⟩ := copy_leaf_body old3 k st h0 hr
    rw [hbody]
    simp only
    have hfmem : f ∈ st.2.free_frames := by rw [hfl]; exact List.mem_cons_self f rest
    have hf0 : f ∈ s0.free_frames := ht.1.subset hfmem
    have hnd2 : (f :: rest).Nodup := by
      rw [← hfl]; exact ht.1.sublist.nodup hnd
    have hfrest : f ∉ rest := (List.nodup_cons.mp hnd2).1
    have hfo : f ≠ frame_of (old3 k) := hun h0 f hf0
    refine ⟨⟨?_, ?_⟩, ⟨fun h => absurd h h0, fun _ => ⟨f, hf0, hfrest, ?_, ?_⟩⟩, ?_⟩
    · show rest <:+ st.2.free_frames
      rw [hfl]
      exact List.suffix_cons f rest
    · intro x hx
      refine ⟨f, hfmem, hfrest, ?_⟩
      by_contra hin
      apply hx
      unfold in_frame at hin
      simp only [memcpy, bzero, hin, if_false]
    · simp only [Function.update_same]
    · intro off hoff
      have hin : f ≤ f + off ∧ f + off < f + PAGE_SIZE := by omega
      have hnot : ¬ (f ≤ frame_of (old3 k) + off ∧ frame_of (old3 k) + off < f + PAGE_SIZE) := by
        intro hin2
        exact hfo (aligned_frames_eq (frame_of (old3 k)) f off _ (frame_of_aligned _)
          (hal f hf0).1 hoff rfl hin2)
      have e1 : f + off - f = off := by omega
      simp only [memcpy, bzero, hin, and_self, if_true, e1, hnot, if_false]
      exact old_frame_kept s0 st.2 (old3 k) off hal (hun h0) ht hoff
    · intro k' hk'
      simp only [Function.update_noteq hk']
  · have hz : old3 k = 0 := not_not.mp h0
    have hbody : copy_Page_Table_leaf old3 k st = (0, (Function.update st.1 k 0, st.2)) := by
      unfold copy_Page_Table_leaf
      simp only [if_neg h0]
    rw [hbody]
    simp only
    refine ⟨frames_taken_refl _, ⟨fun _ => by simp, fun h => absurd hz h⟩, ?_⟩
    intro k' hk'
    simp only [Function.update_noteq hk']

/-- The loop of `copy_Page_Table` over a level-3 array. -/
theorem copy_leaf_loop (s0 si : Kernel) (old3 : PTLeaf) (t0 : PTLeaf)
    (hal : ∀ f ∈ s0.free_frames, f % PAGE_SIZE = 0 ∧ f < WORD)
    (hnd : s0.free_frames.Nodup)
    (hun : ∀ k, old3 k ≠ 0 → ∀ f ∈ s0.free_frames, f ≠ frame_of (old3 k))
    (ht : frames_taken s0 si)
    (hr : (for_loop_ret (copy_Page_Table_leaf old3) PTLEVEL3 0 (t0, si)).1 = 0) :
    frames_taken si (for_loop_ret (copy_Page_Table_leaf old3) PTLEVEL3 0 (t0, si)).2.2 ∧
    ∀ k, k < PTLEVEL3 →
      leaf_copied s0 (for_loop_ret (copy_Page_Table_leaf old3) PTLEVEL3 0 (t0, si)).2.2
        (old3 k) ((for_loop_ret (copy_Page_Table_leaf old3) PTLEVEL3 0 (t0, si)).2.1 k) := by
  have h := for_loop_ret_ind (copy_Page_Table_leaf old3)
    (fun i st => frames_taken si st.2 ∧ ∀ k, k < i → leaf_copied s0 st.2 (old3 k) (st.1 k))
    ?_ PTLEVEL3 0 (t0, si) ⟨frames_taken_refl _, fun k hk => absurd hk (Nat.not_lt_zero k)⟩ hr
  · rw [Nat.zero_add] at h
    exact h
  · intro i st hP hri
    obtain ⟨hP1, hP2⟩ := hP
    have ht2 : frames_taken s0 st.2 := frames_taken_trans _ _ _ ht hP1
    obtain ⟨b1, b2, b3⟩ := copy_leaf_step s0 old3 i st hal hnd (hun i) ht2 hri
    refine ⟨frames_taken_trans _ _ _ hP1 b1, ?_⟩
    intro k hk
    by_cases hki : k = i
    · rw [hki]; exact b2
    · rw [b3 k hki]
      exact leaf_copied_mono s0 st.2 _ _ _ hal ht2.1 (hP2 k (by omega)) b1

theorem leaf_copied_zero (s0 t : Kernel) : leaf_copied s0 t 0 0 :=
  ⟨fun _ => rfl, fun h => absurd rfl h⟩

theorem copy_mid_step (s0 : Kernel) (old2 : PTMid) (j : Nat) (st : PTMid × Kernel)
    (hal : ∀ f ∈ s0.free_frames, f % PAGE_SIZE = 0 ∧ f < WORD)
    (hnd : s0.free_frames.Nodup)
    (hun : ∀ k, leaf_low (old2 j) k ≠ 0 → ∀ f ∈ s0.free_frames,
      f ≠ frame_of (leaf_low (old2 j) k))
    (ht : frames_taken s0 st.2)
    (hr : (copy_Page_Table_mid old2 j st).1 = 0) :
    frames_taken st.2 (copy_Page_Table_mid old2 j st).2.2 ∧
    (∀ k, k < PTLEVEL3 →
      leaf_copied s0 (copy_Page_Table_mid old2 j st).2.2 (leaf_low (old2 j) k)
        (leaf_low ((copy_Page_Table_mid old2 j st).2.1 j) k)) ∧
    ∀ j', j' ≠ j → (copy_Page_Table_mid old2 j st).2.1 j' = st.1 j' := by
  unfold copy_Page_Table_mid at hr ⊢
  cases h2 : old2 j with
  | none =>
    simp only
    refine ⟨frames_taken_refl _, fun k _ => ?_, fun j' hj' => Function.update_noteq hj' _ _⟩
    simp only [Function.update_same]
    exact leaf_copied_zero _ _
  | some old3 =>
    simp only [h2] at hr hun
    simp only
    have hk := kmalloc_kernel st.2
    cases hm : kmalloc st.2 with
    | mk r s1 =>
      rw [hm] at hk hr
      cases r with
      | none => simp [ENOMEM] at hr
      | some g =>
        simp only at hr hk ⊢
        have hs1 : frames_taken st.2 s1 := frames_taken_of_eq _ _ hk.2.1 hk.2.2.1
        obtain ⟨c1, c2⟩ := copy_leaf_loop s0 s1 old3 (fun _ => 0) hal hnd hun
          (frames_taken_trans _ _ _ ht hs1) hr
        refine ⟨frames_taken_trans _ _ _ hs1 c1, fun k hk3 => ?_,
          fun j' hj' => Function.update_noteq hj' _ _⟩
        simp only [Function.update_same, leaf_low_some]
        exact c2 k hk3

/-- The loop of `copy_Page_Table` over a level-2 array. -/
theorem copy_mid_loop (s0 si : Kernel) (old2 : PTMid) (t0 : PTMid)
    (hal : ∀ f ∈ s0.free_frames, f % PAGE_SIZE = 0 ∧ f < WORD)
    (hnd : s0.free_frames.Nodup)
    (hun : ∀ j k, leaf_low (old2 j) k ≠ 0 → ∀ f ∈ s0.free_frames,
      f ≠ frame_of (leaf_low (old2 j) k))
    (ht : frames_taken s0 si)
    (hr : (for_loop_ret (copy_Page_Table_mid old2) PTLEVEL2 0 (t0, si)).1 = 0) :
    frames_taken si (for_loop_ret (copy_Page_Table_mid old2) PTLEVEL2 0 (t0, si)).2.2 ∧
    ∀ j k, j < PTLEVEL2 → k < PTLEVEL3 →
      leaf_copied s0 (for_loop_ret (copy_Page_Table_mid old2) PTLEVEL2 0 (t0, si)).2.2
        (leaf_low (old2 j) k)
        (leaf_low ((for_loop_ret (copy_Page_Table_mid old2) PTLEVEL2 0 (t0, si)).2.1 j) k) := by
  have h := for_loop_ret_ind (copy_Page_Table_mid old2)
    (fun i st => frames_taken si st.2 ∧ ∀ j k, j < i → k < PTLEVEL3 →
      leaf_copied s0 st.2 (leaf_low (old2 j) k) (leaf_low (st.1 j) k))
    ?_ PTLEVEL2 0 (t0, si)
    ⟨frames_taken_refl _, fun j _ hj _ => absurd hj (Nat.not_lt_zero j)⟩ hr
  · rw [Nat.zero_add] at h
    exact h
  · intro i st hP hri
    obtain ⟨hP1, hP2⟩ := hP
    have ht2 : frames_taken s0 st.2 := frames_taken_trans _ _ _ ht hP1
    obtain ⟨b1, b2, b3⟩ := copy_mid_step s0 old2 i st hal hnd (hun i) ht2 hri
    refine ⟨frames_taken_trans _ _ _ hP1 b1, ?_⟩
    intro j k hj hk
    by_cases hji : j = i
    · rw [hji]; exact b2 k hk
    · rw [b3 j hji]
      exact leaf_copied_mono s0 st.2 _ _ _ hal ht2.1 (hP2 j k (by omega) hk) b1

theorem copy_top_step (s0 : Kernel) (oldPT : PTTop) (i : Nat) (st : PTTop × Kernel)
    (hal : ∀ f ∈ s0.free_frames, f % PAGE_SIZE = 0 ∧ f < WORD)
    (hnd : s0.free_frames.Nodup)
    (hun : ∀ j k, leaf_mid (oldPT i) j k ≠ 0 → ∀ f ∈ s0.free_frames,
      f ≠ frame_of (leaf_mid (oldPT i) j k))
    (ht : frames_taken s0 st.2)
    (hr : (copy_Page_Table_top oldPT i st).1 = 0) :
    frames_taken st.2 (copy_Page_Table_top oldPT i st).2.2 ∧
    (∀ j k, j < PTLEVEL2 → k < PTLEVEL3 →
      leaf_copied s0 (copy_Page_Table_top oldPT i st).2.2 (leaf_mid (oldPT i) j k)
        (leaf_mid ((copy_Page_Table_top oldPT i st).2.1 i) j k)) ∧
    ∀ i', i' ≠ i → (copy_Page_Table_top oldPT i st).2.1 i' = st.1 i' := by
  unfold copy_Page_Table_top at hr ⊢
  cases h1 : oldPT i with
  | none =>
    simp only
    refine ⟨frames_taken_refl _, fun j k _ _ => ?_, fun i' hi' => Function.update_noteq hi' _ _⟩
    simp only [Function.update_same]
    exact leaf_copied_zero _ _
  | some old2 =>
    simp only [h1] at hr hun
    simp only
    have hk := kmalloc_kernel st.2
    cases hm : kmalloc st.2 with
    | mk r s1 =>
      rw [hm] at hk hr
      cases r with
      | none => simp [ENOMEM] at hr
      | some g =>
        simp only at hr hk ⊢
        have hs1 : frames_taken st.2 s1 := frames_taken_of_eq _ _ hk.2.1 hk.2.2.1
        obtain ⟨c1, c2⟩ := copy_mid_loop s0 s1 old2 (fun _ => none) hal hnd hun
          (frames_taken_trans _ _ _ ht hs1) hr
        refine ⟨frames_taken_trans _ _ _ hs1 c1, fun j k hj hk3 => ?_,
          fun i' hi' => Function.update_noteq hi' _ _⟩
        simp only [Function.update_same, leaf_mid_some]
        exact c2 j k hj hk3

/-- The leaves and the memory after a `copy_Page_Table` that returns 0, with
free frames that are not in use. -/
theorem copy_Page_Table_copied (s : Kernel) (oldPT newPT : PTTop)
    (hfr : frames_unused s.free_frames oldPT)
    (hr : (copy_Page_Table s oldPT newPT).1 = 0) :
    frames_taken s (copy_Page_Table s oldPT newPT).2.2 ∧
    ∀ i j k, i < PTLEVEL1 → j < PTLEVEL2 → k < PTLEVEL3 →
      leaf_copied s (copy_Page_Table s oldPT newPT).2.2 (leaf_at (some oldPT) i j k)
        (leaf_at (some (copy_Page_Table s oldPT newPT).2.1) i j k) := by
  obtain ⟨hal, hnd, hun⟩ := hfr
  unfold copy_Page_Table at hr ⊢
  simp only at hr ⊢
  have hun2 : ∀ i j k, leaf_mid (oldPT i) j k ≠ 0 → ∀ f ∈ s.free_frames,
      f ≠ frame_of (leaf_mid (oldPT i) j k) := by
    intro i j k hne f hf
    have := hun f hf i j k
    rw [leaf_at_some] at this
    exact this hne
  have h := for_loop_ret_ind (copy_Page_Table_top oldPT)
    (fun n st => frames_taken s st.2 ∧ ∀ i j k, i < n → j < PTLEVEL2 → k < PTLEVEL3 →
      leaf_copied s st.2 (leaf_mid (oldPT i) j k) (leaf_mid (st.1 i) j k))
    ?_ PTLEVEL1 0 (newPT, s)
    ⟨frames_taken_refl _, fun i _ _ hi _ _ => absurd hi (Nat.not_lt_zero i)⟩ hr
  · rw [Nat.zero_add] at h
    refine ⟨h.1, fun i j k hi hj hk => ?_⟩
    rw [leaf_at_some, leaf_at_some]
    exact h.2 i j k hi hj hk
  · intro n st hP hri
    obtain ⟨hP1, hP2⟩ := hP
    obtain ⟨b1, b2, b3⟩ := copy_top_step s oldPT n st hal hnd (hun2 n) hP1 hri
    refine ⟨frames_taken_trans _ _ _ hP1 b1, ?_⟩
    intro i j k hi hj hk
    by_cases hin : i = n
    · rw [hin]; exact b2 j k hj hk
    · rw [b3 i hin]
      exact leaf_copied_mono s st.2 _ _ _ hal hP1.1 (hP2 i j k (by omega) hj hk) b1

theorem packed_and_dirty (x o : Nat) :
    ((x &&& PAGE_FRAME) ||| TLBLO_VALID ||| (o &&& TLBLO_DIRTY)) &&& TLBLO_DIRTY =
      o &&& TLBLO_DIRTY := by
  have h1 : PAGE_FRAME &&& TLBLO_DIRTY = 0 := by decide
  have h2 : TLBLO_VALID &&& TLBLO_DIRTY = 0 := by decide
  rw [Nat.and_distrib_right, Nat.and_distrib_right, Nat.and_assoc x, h1, h2, Nat.and_assoc o,
    Nat.and_self]
  simp

theorem packed_and_frame (x o : Nat) :
    ((x &&& PAGE_FRAME) ||| TLBLO_VALID ||| (o &&& TLBLO_DIRTY)) &&& PAGE_FRAME =
      x &&& PAGE_FRAME := by
  have h1 : TLBLO_DIRTY &&& PAGE_FRAME = 0 := by decide
  have h2 : TLBLO_VALID &&& PAGE_FRAME = 0 := by decide
  rw [Nat.and_distrib_right, Nat.and_distrib_right, Nat.and_assoc x, Nat.and_self, h2,
    Nat.and_assoc o, h1]
  simp

theorem frame_round_trip (f : Nat) (h1 : f % PAGE_SIZE = 0) (h2 : f < WORD) :
    KVADDR_TO_PADDR f &&& PAGE_FRAME = KVADDR_TO_PADDR f ∧
      PADDR_TO_KVADDR (KVADDR_TO_PADDR f) = f := by
  have hlt : KVADDR_TO_PADDR f < WORD := by
    unfold KVADDR_TO_PADDR
    exact Nat.mod_lt _ (by decide)
  have hal : KVADDR_TO_PADDR f % PAGE_SIZE = 0 := by
    unfold KVADDR_TO_PADDR MIPS_KSEG0 WORD
    unfold PAGE_SIZE at *
    unfold WORD at h2
    omega
  constructor
  · rw [and_page_frame _ hlt, hal]
    exact Nat.sub_zero _
  · unfold PADDR_TO_KVADDR KVADDR_TO_PADDR MIPS_KSEG0 WORD
    unfold WORD at h2
    omega

/-- C14. The deep copy of the page table is faithful: whenever
`copy_Page_Table` returns 0, the free frames being frames not in use
(page-aligned, distinct, none the frame of a leaf of the old table), for every
index triple `(i, j, k)` in range the new leaf is not 0 exactly when the old
leaf is not 0, and for an old leaf that is not 0 the new leaf has the valid
bit, the dirty bit of the old leaf, a frame number that differs from that of
the old leaf, its frame holds byte for byte the 4096 bytes that the frame of
the old leaf held, and the frame of the old leaf holds what it held. The old
table is a value that the call does not change. -/
theorem copy_Page_Table_faithful (s : Kernel) (oldPT newPT : PTTop) (i j k : Nat)
    (hfr : frames_unused s.free_frames oldPT)
    (hr : (copy_Page_Table s oldPT newPT).1 = 0)
    (hi : i < PTLEVEL1) (hj : j < PTLEVEL2) (hk : k < PTLEVEL3) :
    (leaf_at (some (copy_Page_Table s oldPT newPT).2.1) i j k ≠ 0 ↔
      leaf_at (some oldPT) i j k ≠ 0) ∧
    (leaf_at (some oldPT) i j k ≠ 0 →
      leaf_at (some (copy_Page_Table s oldPT newPT).2.1) i j k &&& TLBLO_VALID ≠ 0 ∧
      leaf_at (some (copy_Page_Table s oldPT newPT).2.1) i j k &&& TLBLO_DIRTY =
        leaf_at (some oldPT) i j k &&& TLBLO_DIRTY ∧
      leaf_at (some (copy_Page_Table s oldPT newPT).2.1) i j k &&& PAGE_FRAME ≠
        leaf_at (some oldPT) i j k &&& PAGE_FRAME ∧
      (∀ off, off < PAGE_SIZE →
        (copy_Page_Table s oldPT newPT).2.2.mem
            (frame_of (leaf_at (some (copy_Page_Table s oldPT newPT).2.1) i j k) + off) =
          s.mem (frame_of (leaf_at (some oldPT) i j k) + off)) ∧
      (∀ off, off < PAGE_SIZE →
        (copy_Page_Table s oldPT newPT).2.2.mem (frame_of (leaf_at (some oldPT) i j k) + off) =
          s.mem (frame_of (leaf_at (some oldPT) i j k) + off))) := by
  obtain ⟨htaken, hcopied⟩ := copy_Page_Table_copied s oldPT newPT hfr hr
  obtain ⟨hc0, hc1⟩ := hcopied i j k hi hj hk
  obtain ⟨hal, _, hun⟩ := hfr
  generalize leaf_at (some (copy_Page_Table s oldPT newPT).2.1) i j k = n at hc0 hc1 ⊢
  have hun2 := fun f hf => hun f hf i j k
  generalize leaf_at (some oldPT) i j k = o at hc0 hc1 hun2 ⊢
  have hvalid : o ≠ 0 → n &&& TLBLO_VALID ≠ 0 := by
    intro ho
    obtain ⟨f, _, _, hn, _⟩ := hc1 ho
    rw [hn]
    exact or_valid_or_and_valid _ _
  refine ⟨⟨fun hn ho => hn (hc0 ho), fun ho hn => ?_⟩, fun ho => ?_⟩
  · have := hvalid ho
    rw [hn] at this
    simp at this
  · obtain ⟨f, hf0, _, hn, hmem⟩ := hc1 ho
    obtain ⟨e1, e2⟩ := frame_round_trip f (hal f hf0).1 (hal f hf0).2
    have hnf : n &&& PAGE_FRAME = KVADDR_TO_PADDR f := by
      rw [hn, packed_and_frame, e1]
    have hfn : frame_of n = f := by
      unfold frame_of
      rw [hnf, e2]
    refine ⟨hvalid ho, ?_, ?_, ?_, ?_⟩
    · rw [hn, packed_and_dirty]
    · intro heq
      apply hun2 f hf0 ho
      unfold frame_of
      rw [← heq, hnf, e2]
    · intro off hoff
      rw [hfn]
      exact hmem off hoff
    · intro off hoff
      exact old_frame_kept s _ o off hal (fun f hf => hun2 f hf ho) htaken hoff

theorem pt_one_page_leaves (i j k : Nat) :
    leaf_at (some pt_one_page) i j k = 0 ∨ leaf_at (some pt_one_page) i j k = 0x5600 := by
  unfold pt_one_page
  by_cases hidx : i = get_8_mostsb 0x1500 ∧ j = get_6_middlesb 0x1500 ∧ k = get_6_leastsb 0x1500
  · right
    obtain ⟨e1, e2, e3⟩ := hidx
    rw [e1, e2, e3]
    exact insert_leaf_ok (kernel_with []) empty_pt 0x5600 0x1500 (by decide)
  · left
    rw [insert_leaf_at_other _ _ _ _ i j k hidx]
    rfl

set_option maxRecDepth 8192 in
/-- Witness of C14: the table with the one leaf `0x5600` for the page of
`0x1500`, copied in a machine whose free frames are `0x80007000` and
`0x80008000`: the new leaf for that page is `0x7600`. -/
theorem copy_Page_Table_faithful_witness :
    leaf_at (some pt_one_page) 0 0 1 = 0x5600 ∧
    leaf_at (some (copy_Page_Table kernel_for_copy pt_one_page empty_pt).2.1) 0 0 1 = 0x7600 ∧
    (leaf_at (some (copy_Page_Table kernel_for_copy pt_one_page empty_pt).2.1) 0 0 1 ≠ 0 ↔
      leaf_at (some pt_one_page) 0 0 1 ≠ 0) ∧
    (leaf_at (some pt_one_page) 0 0 1 ≠ 0 →
      leaf_at (some (copy_Page_Table kernel_for_copy pt_one_page empty_pt).2.1) 0 0 1 &&&
        TLBLO_VALID ≠ 0 ∧
      leaf_at (some (copy_Page_Table kernel_for_copy pt_one_page empty_pt).2.1) 0 0 1 &&&
          TLBLO_DIRTY = leaf_at (some pt_one_page) 0 0 1 &&& TLBLO_DIRTY ∧
      leaf_at (some (copy_Page_Table kernel_for_copy pt_one_page empty_pt).2.1) 0 0 1 &&&
          PAGE_FRAME ≠ leaf_at (some pt_one_page) 0 0 1 &&& PAGE_FRAME ∧
      (∀ off, off < PAGE_SIZE →
        (copy_Page_Table kernel_for_copy pt_one_page empty_pt).2.2.mem
            (frame_of (leaf_at (some (copy_Page_Table kernel_for_copy pt_one_page
              empty_pt).2.1) 0 0 1) + off) =
          kernel_for_copy.mem (frame_of (leaf_at (some pt_one_page) 0 0 1) + off)) ∧
      (∀ off, off < PAGE_SIZE →
        (copy_Page_Table kernel_for_copy pt_one_page empty_pt).2.2.mem
            (frame_of (leaf_at (some pt_one_page) 0 0 1) + off) =
          kernel_for_copy.mem (frame_of (leaf_at (some pt_one_page) 0 0 1) + off))) :=
  ⟨by decide, by decide,
    copy_Page_Table_faithful kernel_for_copy pt_one_page empty_pt 0 0 1
      ⟨by decide, by decide, fun f hf i j k hne => by
        rcases pt_one_page_leaves i j k with h | h
        · exact absurd h hne
        · rw [h]
          have hf2 : f = 0x80007000 ∨ f = 0x80008000 := by
            simpa [kernel_for_copy] using hf
          rcases hf2 with e | e <;> rw [e] <;> decide⟩
      (by decide) (by decide) (by decide) (by decide)⟩

/-! ## The region loop of `as_copy` at the level of the nodes -/

end OSProject
